import Mathlib

/-!
Verification of the codex-sub-agents configuration/registry core.

This file gives a shallow embedding, in Lean, of the pure core of the
`codex_sub_agent` Python package:

* the tool-name derivation and registry construction of
  `agent_runtime.py` (duplicated in `cli.py`),
* agent resolution from `config_models.py` (duplicated in `config_loader.py`),
* the mandatory-`codex`-transport check of `config_loader.load_config`,
* the `SKILL.md` front-matter splitter of `skill_loader.py`
  (duplicated in `config_loader.py`),
* the `configure` stanza writer of `cli.py`, modelled as a pure function
  from the previous file content to the new file content, and
* the transport acquisition/release of `mcp_server.py`, modelled as the
  trace of enter/exit events performed on the transport context managers.

Python strings are modelled as `String` and operated on through their
`List Char` data, which matches CPython's code-point semantics for the
string operations the code uses.  Python dicts are association lists in
insertion order, with assignment (`d[k] = v`) replacing in place or
appending, like CPython.  Exceptions are `Except` values.  The numeric
suffix loop of `_make_tool_name` is a fuel-based recursion; the fuel is
proven sufficient below (`make_tool_name_spec`), so the extra
`fuelExhausted` outcome of the model is unreachable.
-/

deriving instance DecidableEq for Except

namespace CSA

/-! ### Python string primitives -/

/-- Python `str` whitespace for `strip`/`lstrip`/`rstrip` (ASCII part). -/
def pyWhitespace (c : Char) : Bool :=
  c == ' ' || c == '\t' || c == '\n' || c == '\r' || c == '\x0b' || c == '\x0c'

def lstripWith (p : Char → Bool) (l : List Char) : List Char := l.dropWhile p

def rstripWith (p : Char → Bool) (l : List Char) : List Char :=
  (l.reverse.dropWhile p).reverse

def stripWith (p : Char → Bool) (l : List Char) : List Char :=
  rstripWith p (lstripWith p l)

/-- Python `s.lstrip()`. -/
def pyLstrip (s : String) : String := ⟨lstripWith pyWhitespace s.data⟩

/-- Python `s.rstrip()`. -/
def pyRstrip (s : String) : String := ⟨rstripWith pyWhitespace s.data⟩

/-- Python `s.strip()`. -/
def pyStrip (s : String) : String := ⟨stripWith pyWhitespace s.data⟩

/-- Python `s.strip("_")`. -/
def stripUnderscores (s : String) : String := ⟨stripWith (fun c => c == '_') s.data⟩

/-- Helper for `splitlines`: accumulate the current line, breaking at
`\r\n`, `\r` and `\n`; a trailing segment is kept only when nonempty,
like Python `str.splitlines`. -/
def splitlinesAux : List Char → List Char → List (List Char)
  | [], cur => if cur == [] then [] else [cur]
  | '\r' :: '\n' :: rest, cur => cur :: splitlinesAux rest []
  | '\r' :: rest, cur => cur :: splitlinesAux rest []
  | '\n' :: rest, cur => cur :: splitlinesAux rest []
  | c :: rest, cur => splitlinesAux rest (cur ++ [c])

/-- Python `s.splitlines()` (on the line breaks the repository's data uses). -/
def splitlines (s : String) : List String :=
  (splitlinesAux s.data []).map (fun l => ⟨l⟩)

/-- Python `"\n".join(lines)`. -/
def joinNL : List String → String
  | [] => ""
  | [s] => s
  | s :: s' :: rest => s ++ "\n" ++ joinNL (s' :: rest)

/-- Python `s[:n]` on code points. -/
def pyTake (s : String) (n : Nat) : String := ⟨s.data.take n⟩

/-- Python `len(s)` (code points). -/
def pyLen (s : String) : Nat := s.data.length

/-- Characters the MCP tool-name regex `[A-Za-z0-9_-]` accepts. -/
def isToolChar (c : Char) : Bool :=
  ('A' ≤ c && c ≤ 'Z') || ('a' ≤ c && c ≤ 'z') || ('0' ≤ c && c ≤ '9') || c == '_' || c == '-'

/-! ### `AgentRegistry._make_tool_name` (agent_runtime.py lines 144-155)

`re.sub(r"[^A-Za-z0-9_-]", "_", alias)` then `.strip("_") or "agent"`,
then the `while candidate in used` suffix loop, then the final
`re.fullmatch(r"[A-Za-z0-9_-]+", candidate)` guard.  The `while` loop is
given `used.length + 1` units of fuel; `make_tool_name_spec` proves this
fuel always suffices, so the model's `fuelExhausted` outcome (absent from
the Python, whose loop always terminates) is unreachable. -/

def sanitizeAlias (aliasStr : String) : String :=
  let replaced : List Char := aliasStr.data.map (fun c => if isToolChar c then c else '_')
  let stripped := stripWith (fun c => c == '_') replaced
  if stripped == [] then "agent" else ⟨stripped⟩

/-- One candidate string `f"{sanitized}_{index}"`. -/
def suffixCandidate (sanitized : String) (index : ℕ) : String :=
  sanitized ++ "_" ++ Nat.repr index

/-- The `while candidate in used` loop of `_make_tool_name`. -/
def toolNameLoop (sanitized : String) (used : List String) :
    ℕ → String → ℕ → Option String
  | 0, _, _ => none
  | fuel + 1, candidate, index =>
    if candidate ∈ used then
      toolNameLoop sanitized used fuel (suffixCandidate sanitized index) (index + 1)
    else some candidate

inductive NameErr where
  | fuelExhausted
  | invalidDerived
deriving DecidableEq, Repr

def make_tool_name (aliasStr : String) (used : List String) : Except NameErr String :=
  let sanitized := sanitizeAlias aliasStr
  match toolNameLoop sanitized used (used.length + 1) sanitized 2 with
  | none => .error .fuelExhausted
  | some candidate =>
    if candidate.data == [] || !(candidate.data.all isToolChar) then
      .error .invalidDerived
    else .ok candidate

/-- The candidates the loop examines, in order. -/
def examinedCandidates (s : String) : ℕ → String → ℕ → List String
  | 0, _, _ => []
  | fuel + 1, cand, idx => cand :: examinedCandidates s fuel (suffixCandidate s idx) (idx + 1)

/-! ### Data model (config_models.py) -/

inductive DefaultApi where
  | responses
  | chat_completions
deriving DecidableEq

structure OpenAISettings where
  api_key_env_var : String := "OPENAI_API_KEY"
  default_api : DefaultApi := .responses
deriving DecidableEq

structure AgentSkillAttachment where
  filename : String
  relative_path : String
  absolute_path : String
  size_bytes : ℕ
deriving DecidableEq

structure AgentSkill where
  slug : String
  name : String
  description : String
  instructions : String
  directory : String
  attachments : List AgentSkillAttachment
deriving DecidableEq

/-- `AgentSettings`; the `temperature` float is carried inertly (modelled as a
rational), the code never computes with it. -/
structure AgentSettings where
  name : String
  model : String := "gpt-5"
  instructions : String
  default_prompt : String
  temperature : Option ℚ := none
  reasoning_tokens : Option ℕ := none
  mcp_servers : List String := []
  skills : List AgentSkill := []
deriving DecidableEq

structure MCPStdioConfig where
  name : String
  command : String
  args : List String := []
  env : List (String × String) := []
  client_session_timeout_seconds : ℚ := 300
deriving DecidableEq

structure MCPHttpConfig where
  name : String
  url : String
  headers : List (String × String) := []
  bearer_token_env_var : Option String := none
  client_session_timeout_seconds : ℚ := 60
deriving DecidableEq

inductive MCPConfig where
  | stdio (cfg : MCPStdioConfig)
  | http (cfg : MCPHttpConfig)
deriving DecidableEq

/-- Python dicts are association lists in insertion order. -/
structure SubAgentConfig where
  openai : OpenAISettings := {}
  agent : Option AgentSettings := none
  agents : List (String × AgentSettings) := []
  default_agent_id : Option String := none
  aliases : List (String × String) := []
  mcp_servers : List (String × MCPConfig) := []
deriving DecidableEq

/-! ### Python dict operations on association lists -/

def dkeys {α : Type} (m : List (String × α)) : List String := m.map Prod.fst

/-- Python `k in d`. -/
def dmem {α : Type} (m : List (String × α)) (k : String) : Bool :=
  m.any (fun p => p.1 == k)

/-- Python `d.get(k)`. -/
def dget? {α : Type} (m : List (String × α)) (k : String) : Option α :=
  (m.find? (fun p => p.1 == k)).map Prod.snd

/-- Python `d[k] = v`: replace in place when the key exists, else append. -/
def dinsert {α : Type} (m : List (String × α)) (k : String) (v : α) : List (String × α) :=
  if dmem m k then m.map (fun p => if p.1 == k then (k, v) else p) else m ++ [(k, v)]

/-! ### Errors

Python raises `InvalidConfiguration` for all of these except
`nameDerivation .fuelExhausted` (a model artifact, proven unreachable) and
`emptyInstructions` (Python raises `IndexError` from
`instructions.strip().splitlines()[0]` on whitespace-only instructions). -/

inductive RegError where
  | noAgents
  | noAliases
  | unknownAliasTarget (aliasName agentId : String)
  | nameDerivation (e : NameErr) (aliasName : String)
  | emptyInstructions (agentName : String)
  | unknownTool (name : String)
  | unknownAgent (name : String)
  | agentNotFound (agentId : String)
  | defaultAgentNotDefined (agentId : String)
  | missingCodexServer
  | skillMissingFrontmatter
  | skillMissingClosingDelimiter
  | skillManifestSyntax
  | skillManifestMissingKey (key : String)
  | skillEmptyBody
deriving DecidableEq

/-- Does the error correspond to a Python `InvalidConfiguration`? -/
def RegError.isConfigError : RegError → Bool
  | .nameDerivation .fuelExhausted _ => false
  | .emptyInstructions _ => false
  | _ => true

/-! ### `SubAgentConfig` methods (config_models.py lines 67-97) -/

/-- `_agent_map`: the agents table, with the legacy single `agent` added
under the key `"default"` when absent (`dict.setdefault`). -/
def agent_map (config : SubAgentConfig) : List (String × AgentSettings) :=
  match config.agent with
  | some a =>
    if dmem config.agents "default" then config.agents
    else config.agents ++ [("default", a)]
  | none => config.agents

/-- `available_agents`. -/
def available_agents (config : SubAgentConfig) :
    Except RegError (List (String × AgentSettings)) :=
  if agent_map config = [] then .error .noAgents else .ok (agent_map config)

/-- Key order used by Python `sorted` on strings (code-point lexicographic). -/
def keyLe (a b : String) : Prop := a.data ≤ b.data

instance : DecidableRel keyLe := fun a b => inferInstanceAs (Decidable (a.data ≤ b.data))

instance : IsTotal String keyLe := ⟨fun a b => le_total a.data b.data⟩

instance : IsTrans String keyLe := ⟨fun _ _ _ h1 h2 => le_trans h1 h2⟩

/-- `sorted(agents)[0]` then the lookup, from `resolve_agent`'s final branch.
The two `.error` fallbacks are unreachable (the caller guarantees a nonempty
map, and the chosen key is a key of the map). -/
def lexSmallestBranch (agents : List (String × AgentSettings)) :
    Except RegError (String × AgentSettings) :=
  match List.insertionSort keyLe (dkeys agents) with
  | [] => .error .noAgents
  | chosen :: _ =>
    match dget? agents chosen with
    | some s => .ok (chosen, s)
    | none => .error (.agentNotFound chosen)

/-- The part of `resolve_agent` reached when no explicit identifier was
given: `if self.default_agent_id:` then the `sorted(agents)[0]` fallback. -/
def defaultAgentBranch (config : SubAgentConfig)
    (agents : List (String × AgentSettings)) :
    Except RegError (String × AgentSettings) :=
  match config.default_agent_id with
  | some d =>
    if d = "" then lexSmallestBranch agents
    else
      match dget? agents d with
      | some s => .ok (d, s)
      | none => .error (.defaultAgentNotDefined d)
  | none => lexSmallestBranch agents

/-- `SubAgentConfig.resolve_agent` (config_models.py lines 79-97, duplicated
in config_loader.py lines 85-116).  `if agent_id:` is Python truthiness:
`None` and `""` both fall through to the default branch. -/
def resolve_agent (config : SubAgentConfig) (agent_id : Option String) :
    Except RegError (String × AgentSettings) :=
  match available_agents config with
  | .error e => .error e
  | .ok agents =>
    match agent_id with
    | some aid =>
      if aid = "" then defaultAgentBranch config agents
      else
        let resolved_id := (dget? config.aliases aid).getD aid
        match dget? agents resolved_id with
        | some s => .ok (resolved_id, s)
        | none => .error (.agentNotFound aid)
    | none => defaultAgentBranch config agents

/-! ### Registry (agent_runtime.py lines 40-155, duplicated in cli.py) -/

structure AgentBlueprint where
  agent_id : String
  settings : AgentSettings
  mcp_server_names : List String
deriving DecidableEq

/-- `AgentAliasEntry`; the Python field `alias` is `aliasName` here
(`alias` is reserved in Lean). -/
structure AgentAliasEntry where
  aliasName : String
  tool_name : String
  blueprint : AgentBlueprint
  description : String
  expose_in_tools : Bool := true
deriving DecidableEq

def blueprintsOf (agents : List (String × AgentSettings)) :
    List (String × AgentBlueprint) :=
  agents.map (fun p => (p.1, ⟨p.1, p.2, p.2.mcp_servers⟩))

/-- `_summarize_agent`: first line of the stripped instructions, truncated
to 200 characters with an ellipsis.  `splitlines()[0]` on an empty list is
Python's `IndexError`, modelled as `emptyInstructions`. -/
def summarize_agent (settings : AgentSettings) : Except RegError String :=
  match splitlines (pyStrip settings.instructions) with
  | [] => .error (.emptyInstructions settings.name)
  | l0 :: _ =>
    let primary_line := pyStrip l0
    let primary_line :=
      if 200 < pyLen primary_line then pyRstrip (pyTake primary_line 197) ++ "..."
      else primary_line
    .ok (settings.name ++ ": " ++ primary_line)

/-- The `for alias, agent_id in config.aliases.items()` loop of
`AgentRegistry.__init__`: builds `tool_entries` (keyed by tool name),
`aliases_by_agent`, and the `used_tool_names` set (kept as a list). -/
def aliasLoop (blueprints : List (String × AgentBlueprint)) :
    List (String × String) → List (String × AgentAliasEntry) →
    List (String × List String) → List String →
    Except RegError
      (List (String × AgentAliasEntry) × List (String × List String) × List String)
  | [], entries, byAgent, used => .ok (entries, byAgent, used)
  | (aliasName, agentId) :: rest, entries, byAgent, used =>
    match dget? blueprints agentId with
    | none => .error (.unknownAliasTarget aliasName agentId)
    | some bp =>
      match make_tool_name aliasName used with
      | .error e => .error (.nameDerivation e aliasName)
      | .ok tool_name =>
        match summarize_agent bp.settings with
        | .error e => .error e
        | .ok description =>
          aliasLoop blueprints rest
            (dinsert entries tool_name
              { aliasName := aliasName, tool_name := tool_name, blueprint := bp,
                description := description, expose_in_tools := true })
            (byAgent.map (fun p => if p.1 == agentId then (p.1, p.2 ++ [aliasName]) else p))
            (used ++ [tool_name])

/-- The `for entry in self.tool_entries.values()` loop building
`cli_aliases` keyed by both alias and tool name. -/
def cliFromEntries : List (String × AgentAliasEntry) → List (String × AgentAliasEntry) →
    List (String × AgentAliasEntry)
  | [], cli => cli
  | (_, e) :: rest, cli => cliFromEntries rest (dinsert (dinsert cli e.aliasName e) e.tool_name e)

/-- The fallback loop of `AgentRegistry.__init__` (lines 92-103): a CLI-only
entry for every agent id that is not already a key of `cli_aliases`.  Note
the Python does not add the fallback tool to `used_tool_names`. -/
def fallbackLoop (used : List String) :
    List (String × AgentBlueprint) → List (String × AgentAliasEntry) →
    Except RegError (List (String × AgentAliasEntry))
  | [], cli => .ok cli
  | (agentId, bp) :: rest, cli =>
    if dmem cli agentId then fallbackLoop used rest cli
    else
      match make_tool_name agentId used with
      | .error e => .error (.nameDerivation e agentId)
      | .ok fallback_tool =>
        match summarize_agent bp.settings with
        | .error e => .error e
        | .ok description =>
          let entry : AgentAliasEntry :=
            { aliasName := agentId, tool_name := fallback_tool, blueprint := bp,
              description := description, expose_in_tools := false }
          fallbackLoop used rest (dinsert (dinsert cli agentId entry) fallback_tool entry)

/-- The fixed `inputSchema` dict (an object with one optional string
property `request` and `additionalProperties: false`), flattened. -/
structure ToolInputSchema where
  type : String
  request_description : String
  additionalProperties : Bool
deriving DecidableEq

def AGENT_TOOL_INPUT_SCHEMA : ToolInputSchema :=
  { type := "object",
    request_description := "Optional override for the agent's entry message.",
    additionalProperties := false }

structure ToolDef where
  name : String
  description : String
  inputSchema : ToolInputSchema
deriving DecidableEq

/-- `sorted(..., key=lambda e: e.tool_name)` order. -/
def entryLe (a b : AgentAliasEntry) : Prop := a.tool_name.data ≤ b.tool_name.data

instance : DecidableRel entryLe := fun a b =>
  inferInstanceAs (Decidable (a.tool_name.data ≤ b.tool_name.data))

instance : IsTotal AgentAliasEntry entryLe :=
  ⟨fun a b => le_total a.tool_name.data b.tool_name.data⟩

instance : IsTrans AgentAliasEntry entryLe := ⟨fun _ _ _ h1 h2 => le_trans h1 h2⟩

/-- `self.tool_definitions` (lines 105-121). -/
def toolDefinitionsOf (entries : List (String × AgentAliasEntry)) : List ToolDef :=
  (List.insertionSort entryLe (entries.map Prod.snd)).map
    (fun e => { name := e.tool_name, description := e.description,
                inputSchema := AGENT_TOOL_INPUT_SCHEMA })

structure Registry where
  tool_entries : List (String × AgentAliasEntry)
  aliases_by_agent : List (String × List String)
  cli_aliases : List (String × AgentAliasEntry)
  tool_definitions : List ToolDef
deriving DecidableEq

/-- `AgentRegistry.__init__`. -/
def buildRegistry (config : SubAgentConfig) : Except RegError Registry :=
  match available_agents config with
  | .error e => .error e
  | .ok agents =>
    if config.aliases.isEmpty then .error .noAliases
    else
      match aliasLoop (blueprintsOf agents) config.aliases []
          (agents.map (fun p => (p.1, ([] : List String)))) [] with
      | .error e => .error e
      | .ok (entries, byAgent, used) =>
        match fallbackLoop used (blueprintsOf agents) (cliFromEntries entries []) with
        | .error e => .error e
        | .ok cli =>
          .ok { tool_entries := entries, aliases_by_agent := byAgent,
                cli_aliases := cli, tool_definitions := toolDefinitionsOf entries }

/-- `AgentRegistry.resolve_tool_name`. -/
def resolve_tool_name (r : Registry) (tool_name : String) :
    Except RegError AgentAliasEntry :=
  match dget? r.tool_entries tool_name with
  | some e => .ok e
  | none => .error (.unknownTool tool_name)

/-- `AgentRegistry.resolve_cli_alias`. -/
def resolve_cli_alias (r : Registry) (aliasName : String) :
    Except RegError AgentAliasEntry :=
  match dget? r.cli_aliases aliasName with
  | some e => .ok e
  | none => .error (.unknownAgent aliasName)

/-! ### `load_config` mandatory-transport check (config_loader.py 362-372) -/

/-- The tail of `load_config` after `SubAgentConfig.model_validate`
succeeded: require the `"codex"` entry in `mcp_servers`. -/
def load_config_postcheck (cfg : SubAgentConfig) : Except RegError SubAgentConfig :=
  if dmem cfg.mcp_servers "codex" then .ok cfg else .error .missingCodexServer

/-! ### `SKILL.md` splitting (skill_loader.py 11-97, duplicated in
config_loader.py 150-201) -/

/-- `_strip_quotes`. -/
def strip_quotes (value : String) : String :=
  let v := pyStrip value
  if (v.data.head? == some '"' && v.data.getLast? == some '"') ||
      (v.data.head? == some '\'' && v.data.getLast? == some '\'') then
    ⟨(v.data.drop 1).dropLast⟩
  else v

/-- The `for raw_line in lines` loop of `_parse_skill_manifest`. -/
def parseManifestLoop : List String → List (String × String) →
    Except RegError (List (String × String))
  | [], manifest => .ok manifest
  | raw_line :: rest, manifest =>
    let line := pyStrip raw_line
    if line = "" || line.data.head? == some '#' then parseManifestLoop rest manifest
    else if line.data.contains ':' then
      let key := pyStrip ⟨line.data.takeWhile (fun c => !(c == ':'))⟩
      let value := strip_quotes ⟨(line.data.dropWhile (fun c => !(c == ':'))).drop 1⟩
      parseManifestLoop rest (dinsert manifest key value)
    else .error .skillManifestSyntax

/-- `_parse_skill_manifest`: parse the lines, then require truthy `name`
and `description` values. -/
def _parse_skill_manifest (lines : List String) :
    Except RegError (List (String × String)) :=
  match parseManifestLoop lines [] with
  | .error e => .error e
  | .ok manifest =>
    if ((dget? manifest "name").getD "") = "" then
      .error (.skillManifestMissingKey "name")
    else if ((dget? manifest "description").getD "") = "" then
      .error (.skillManifestMissingKey "description")
    else .ok manifest

/-- `_split_skill_file` (path argument omitted: it only feeds messages). -/
def _split_skill_file (content : String) :
    Except RegError (List (String × String) × String) :=
  let text := pyLstrip content
  let lines := splitlines text
  match lines with
  | [] => .error .skillMissingFrontmatter
  | l0 :: restLines =>
    if pyStrip l0 = "---" then
      match restLines.findIdx? (fun l => pyStrip l == "---") with
      | none => .error .skillMissingClosingDelimiter
      | some j =>
        let manifest_lines := restLines.take j
        let body := pyStrip (joinNL (restLines.drop (j + 1)))
        match _parse_skill_manifest manifest_lines with
        | .error e => .error e
        | .ok manifest =>
          if body = "" then .error .skillEmptyBody
          else .ok (manifest, body)
    else .error .skillMissingFrontmatter

/-! ### `configure_codex` (cli.py 625-663), as a pure content transformer -/

def startsWithChars : List Char → List Char → Bool
  | [], _ => true
  | _ :: _, [] => false
  | p :: ps, c :: cs => p == c && startsWithChars ps cs

/-- Python `pat in text` for strings. -/
def containsSubstring (pat : List Char) : List Char → Bool
  | [] => startsWithChars pat []
  | c :: rest => startsWithChars pat (c :: rest) || containsSubstring pat rest

def stanza_header : String := "[mcp_servers.codex_sub_agent]"

def codex_stanza (config_path : String) : String :=
  stanza_header ++ "\n" ++
  "command = \"codex-sub-agent\"\n" ++
  "args = [\"--config\", \"" ++ config_path ++ "\"]\n" ++
  "startup_timeout_sec = 60\n" ++
  "client_session_timeout_seconds = 3600\n"

def endsWithNewline (s : String) : Bool := s.data.getLast? == some '\n'

structure ConfigureResult where
  content : String
  already_contains : Bool
  exit_code : ℕ
deriving DecidableEq

/-- `configure_codex`, restricted to its effect on the target file:
`existing` is the file's previous content (`none` when absent), `content`
the content after the call, `already_contains` whether the early
"already contains the codex_sub_agent stanza" path was taken.  The
config-path existence guard at the top of the Python function is I/O and
touches neither the target file nor the stanza. -/
def configure_codex (config_path : String) (existing : Option String) : ConfigureResult :=
  match existing with
  | some existing_text =>
    if containsSubstring stanza_header.data existing_text.data then
      { content := existing_text, already_contains := true, exit_code := 0 }
    else
      let newline := if endsWithNewline existing_text then "" else "\n"
      { content := existing_text ++ newline ++ "\n" ++ codex_stanza config_path,
        already_contains := false, exit_code := 0 }
  | none =>
    { content := codex_stanza config_path, already_contains := false, exit_code := 0 }

/-! ### Transport lifecycle (mcp_server.py 98-192), as an event trace

Each transport that `initialize_mcp_servers` enters contributes an
`enter` event; every `__aexit__` performed on it (one shutdown attempt)
contributes an `exit` event.  `AsyncExitStack.aclose` pops in LIFO
order. -/

inductive MCPEvent where
  | enter (name : String)
  | exit (name : String)
deriving DecidableEq

inductive RunError where
  | unknownServer (name : String)
  | missingTokenEnv (envVar name : String)
  | runnerFailed
deriving DecidableEq

def acloseEvents (stack : List String) : List MCPEvent :=
  stack.reverse.map MCPEvent.exit

/-- Python `list(dict.fromkeys(server_names))`. -/
def dedupAux : List String → List String → List String
  | [], _ => []
  | x :: rest, seen =>
    if x ∈ seen then dedupAux rest seen else x :: dedupAux rest (seen ++ [x])

def dedupKeepFirst (l : List String) : List String := dedupAux l []

/-- The `for name in unique_names` loop of `initialize_mcp_servers`.
On an unknown server name the code runs `await exit_stack.aclose()` before
raising; on a missing bearer token it raises `RuntimeError` *without*
closing the stack. -/
def initLoop (config : SubAgentConfig) (env : List (String × String)) :
    List String → List String → List MCPEvent →
    Except RunError (List String) × List MCPEvent
  | [], stack, events => (.ok stack, events)
  | name :: rest, stack, events =>
    match dget? config.mcp_servers name with
    | none => (.error (.unknownServer name), events ++ acloseEvents stack)
    | some (.stdio _) =>
      initLoop config env rest (stack ++ [name]) (events ++ [.enter name])
    | some (.http h) =>
      match h.bearer_token_env_var with
      | some envVar =>
        if envVar = "" then
          initLoop config env rest (stack ++ [name]) (events ++ [.enter name])
        else
          match dget? env envVar with
          | some token =>
            if token = "" then (.error (.missingTokenEnv envVar name), events)
            else initLoop config env rest (stack ++ [name]) (events ++ [.enter name])
          | none => (.error (.missingTokenEnv envVar name), events)
      | none => initLoop config env rest (stack ++ [name]) (events ++ [.enter name])

def initialize_mcp_servers (config : SubAgentConfig) (env : List (String × String))
    (server_names : List String) : Except RunError (List String) × List MCPEvent :=
  initLoop config env (dedupKeepFirst server_names) [] []

/-- `run_agent_workflow`: acquire the transports, run (outcome abstracted
as `runnerOk`), and close the exit stack in the `finally`.  When
acquisition itself raises, the exception propagates with whatever events
the acquisition emitted. -/
def run_agent_workflow (config : SubAgentConfig) (env : List (String × String))
    (server_names : List String) (runnerOk : Bool) :
    Except RunError Unit × List MCPEvent :=
  match initialize_mcp_servers config env server_names with
  | (.error e, events) => (.error e, events)
  | (.ok stack, events) =>
    if runnerOk then (.ok (), events ++ acloseEvents stack)
    else (.error .runnerFailed, events ++ acloseEvents stack)

/-- Shared example agent settings (the spec's `demo` agent). -/
def exampleSettings : AgentSettings :=
  { name := "Demo Agent",
    instructions := "Primary instruction line.\nSecond line.",
    default_prompt := "Kick things off." }

/-- C1's concrete example: two aliases that sanitize to the same name. -/
def cfgCollidingAliases : SubAgentConfig :=
  { agents := [("x", exampleSettings)],
    aliases := [("a!b", "x"), ("a#b", "x")],
    mcp_servers := [("codex", .stdio { name := "Codex", command := "echo" })] }

def emptyRegistry : Registry :=
  { tool_entries := [], aliases_by_agent := [], cli_aliases := [], tool_definitions := [] }

/-- The registry a configuration builds (the empty registry when
construction fails); lets witnesses name the concrete registry. -/
def regOf (config : SubAgentConfig) : Registry :=
  (buildRegistry config).toOption.getD emptyRegistry

def cfgNoAliases : SubAgentConfig :=
  { agents := [("demo", exampleSettings)],
    aliases := [],
    mcp_servers := [("codex", .stdio { name := "Codex", command := "echo" })] }

def cfgBadAliasTarget : SubAgentConfig :=
  { agents := [("demo", exampleSettings)],
    aliases := [("ghost", "missing")],
    mcp_servers := [("codex", .stdio { name := "Codex", command := "echo" })] }

def cfgNoCodex : SubAgentConfig :=
  { agents := [("demo", exampleSettings)],
    aliases := [("demo", "demo")],
    mcp_servers := [("http", .http { name := "HTTP", url := "https://example.com" })] }

/-- C3's concrete run configuration: a stdio transport followed by an HTTP
transport whose bearer-token environment variable is required. -/
def cfgPartialAcquisition : SubAgentConfig :=
  { agents := [("demo", exampleSettings)],
    aliases := [("demo", "demo")],
    mcp_servers :=
      [("codex", .stdio { name := "Codex", command := "echo" }),
       ("web", .http { name := "Web", url := "https://example.com",
                       bearer_token_env_var := some "WEB_TOKEN" })] }

def cfgWorkflowDefault : SubAgentConfig :=
  { agents := [("workflow", exampleSettings), ("other", exampleSettings)],
    default_agent_id := some "workflow",
    aliases := [("w", "workflow")] }

def cfgWorkflowNoDefault : SubAgentConfig :=
  { agents := [("workflow", exampleSettings), ("other", exampleSettings)],
    aliases := [("w", "workflow")] }

def cfgShadowedAgent : SubAgentConfig :=
  { agents := [("b", exampleSettings), ("c", exampleSettings)],
    aliases := [("b", "c")],
    mcp_servers := [("codex", .stdio { name := "Codex", command := "echo" })] }

/-- The alias-phase outputs of a configuration, for naming concrete values
in witnesses. -/
def aliasPhaseOf (config : SubAgentConfig) :
    Except RegError
      (List (String × AgentAliasEntry) × List (String × List String) × List String) :=
  aliasLoop (blueprintsOf (agent_map config)) config.aliases []
    ((agent_map config).map (fun p => (p.1, ([] : List String)))) []

def aliasPhaseTriple (config : SubAgentConfig) :
    List (String × AgentAliasEntry) × List (String × List String) × List String :=
  (aliasPhaseOf config).toOption.getD ([], [], [])

/-! ### Theorems -/

theorem splitlinesAux_crlf (rest cur : List Char) :
    splitlinesAux ('\r' :: '\n' :: rest) cur = cur :: splitlinesAux rest [] := by
  rw [splitlinesAux]

theorem splitlinesAux_nl (rest cur : List Char) :
    splitlinesAux ('\n' :: rest) cur = cur :: splitlinesAux rest [] := by
  rw [splitlinesAux.eq_def]
  split <;> try simp_all
  rename_i hr hn heq
  exact absurd heq.1.symm hn

theorem splitlinesAux_cr (d : Char) (r cur : List Char) (hd : d ≠ '\n') :
    splitlinesAux ('\r' :: d :: r) cur = cur :: splitlinesAux (d :: r) [] := by
  rw [splitlinesAux.eq_def]
  split <;> try simp_all
  rename_i hr hn heq
  exact absurd heq.1.symm hr

theorem splitlinesAux_cr_nil (cur : List Char) :
    splitlinesAux ['\r'] cur = cur :: splitlinesAux [] [] := by
  rw [splitlinesAux.eq_def]
  split <;> try simp_all
  rename_i hr hn heq
  exact absurd heq.1.symm hr

theorem splitlinesAux_other (c : Char) (rest cur : List Char) (h1 : c ≠ '\r')
    (h2 : c ≠ '\n') :
    splitlinesAux (c :: rest) cur = splitlinesAux rest (cur ++ [c]) := by
  rw [splitlinesAux.eq_def]
  split <;> simp_all

theorem splitlinesAux_eq_nil (l cur : List Char) (h : splitlinesAux l cur = []) :
    l = [] ∧ cur = [] := by
  induction l, cur using splitlinesAux.induct with
  | case1 cur hcur => exact ⟨rfl, by simpa using hcur⟩
  | case2 cur hcur =>
    rw [splitlinesAux, if_neg hcur] at h
    simp at h
  | case3 rest cur ih =>
    rw [splitlinesAux_crlf] at h
    simp at h
  | case4 rest cur hshape ih =>
    cases rest with
    | nil =>
      rw [splitlinesAux_cr_nil] at h
      simp at h
    | cons d r =>
      have hd : d ≠ '\n' := fun hh => hshape r (by rw [hh])
      rw [splitlinesAux_cr d r cur hd] at h
      simp at h
  | case5 rest cur ih =>
    rw [splitlinesAux_nl] at h
    simp at h
  | case6 c rest cur h1 h2 h3 ih =>
    rw [splitlinesAux_other c rest cur h2 h3] at h
    rcases ih h with ⟨_, hcur⟩
    simp at hcur

theorem splitlinesAux_ne_nil (l cur : List Char) (h : l ≠ [] ∨ cur ≠ []) :
    splitlinesAux l cur ≠ [] := by
  intro hnil
  rcases splitlinesAux_eq_nil l cur hnil with ⟨h1, h2⟩
  rcases h with h | h
  · exact h h1
  · exact h h2

theorem splitlines_ne_nil (s : String) (h : s ≠ "") : splitlines s ≠ [] := by
  have hd : s.data ≠ [] := by
    intro hc
    apply h
    cases s
    simp_all
  simp only [splitlines, ne_eq, List.map_eq_nil_iff]
  exact splitlinesAux_ne_nil _ _ (Or.inl hd)

/-! ### Decimal representation: `Nat.repr` facts needed for suffix freshness -/

theorem toDigitsCore_eq_digits (fuel : ℕ) :
    ∀ (n : ℕ) (l : List Char), n < fuel → n ≠ 0 →
    Nat.toDigitsCore 10 fuel n l = ((Nat.digits 10 n).map Nat.digitChar).reverse ++ l := by
  induction fuel with
  | zero => intro n l h; omega
  | succ f ih =>
    intro n l hlt hn
    have hdig : Nat.digits 10 n = n % 10 :: Nat.digits 10 (n / 10) :=
      Nat.digits_def' (by norm_num) (Nat.pos_of_ne_zero hn)
    by_cases hdiv : n / 10 = 0
    · simp only [Nat.toDigitsCore, hdiv, if_true, hdig, Nat.digits_zero,
        List.map_cons, List.map_nil, List.reverse_cons, List.reverse_nil]
      simp
    · have hrec : Nat.toDigitsCore 10 (f + 1) n l =
          Nat.toDigitsCore 10 f (n / 10) (Nat.digitChar (n % 10) :: l) := by
        simp only [Nat.toDigitsCore, hdiv, if_false]
      have hfuel : n / 10 < f := by
        have h1 : n / 10 < n := Nat.div_lt_self (Nat.pos_of_ne_zero hn) (by norm_num)
        omega
      rw [hrec, ih (n / 10) _ hfuel hdiv, hdig]
      simp [List.append_assoc]

theorem repr_data_eq (n : ℕ) (hn : n ≠ 0) :
    (Nat.repr n).data = ((Nat.digits 10 n).map Nat.digitChar).reverse := by
  show (Nat.toDigits 10 n).asString.data = _
  rw [Nat.toDigits, toDigitsCore_eq_digits (n + 1) n [] (by omega) hn]
  simp [List.asString]

theorem digitChar_inj_lt10 :
    ∀ a < 10, ∀ b < 10, Nat.digitChar a = Nat.digitChar b → a = b := by decide

theorem map_digitChar_inj :
    ∀ (l₁ l₂ : List ℕ), (∀ d ∈ l₁, d < 10) → (∀ d ∈ l₂, d < 10) →
    l₁.map Nat.digitChar = l₂.map Nat.digitChar → l₁ = l₂ := by
  intro l₁
  induction l₁ with
  | nil => intro l₂ _ _ h; cases l₂ <;> simp_all
  | cons a t ih =>
    intro l₂ h₁ h₂ h
    cases l₂ with
    | nil => simp_all
    | cons b t₂ =>
      simp only [List.map_cons, List.cons.injEq] at h
      have ha : a = b := digitChar_inj_lt10 a (h₁ a (by simp)) b (h₂ b (by simp)) h.1
      have ht : t = t₂ := ih t₂ (fun d hd => h₁ d (by simp [hd]))
        (fun d hd => h₂ d (by simp [hd])) h.2
      rw [ha, ht]

theorem nat_repr_injective : ∀ a b : ℕ, Nat.repr a = Nat.repr b → a = b := by
  intro a b h
  have hd : (Nat.repr a).data = (Nat.repr b).data := by rw [h]
  by_cases ha : a = 0 <;> by_cases hb : b = 0
  · rw [ha, hb]
  · exfalso
    rw [ha] at hd
    have h0 : (Nat.repr 0).data = ['0'] := by decide
    rw [h0, repr_data_eq b hb] at hd
    have hmap : (Nat.digits 10 b).map Nat.digitChar = ['0'] := by
      have := congrArg List.reverse hd
      simpa using this.symm
    have hdig : Nat.digits 10 b = [0] := by
      cases hdigs : Nat.digits 10 b with
      | nil => simp [hdigs] at hmap
      | cons d t =>
        rw [hdigs] at hmap
        cases t with
        | nil =>
          simp only [List.map_cons, List.map_nil, List.cons.injEq, and_true] at hmap
          have hdlt : d < 10 := Nat.digits_lt_base (by norm_num) (by rw [hdigs]; simp)
          have : d = 0 := digitChar_inj_lt10 d hdlt 0 (by norm_num) (by simpa using hmap)
          rw [this]
        | cons d' t' => simp at hmap
    have := Nat.ofDigits_digits 10 b
    rw [hdig] at this
    simp [Nat.ofDigits] at this
    exact hb this.symm
  · exfalso
    rw [hb] at hd
    have h0 : (Nat.repr 0).data = ['0'] := by decide
    rw [h0, repr_data_eq a ha] at hd
    have hmap : (Nat.digits 10 a).map Nat.digitChar = ['0'] := by
      have := congrArg List.reverse hd
      simpa using this
    have hdig : Nat.digits 10 a = [0] := by
      cases hdigs : Nat.digits 10 a with
      | nil => simp [hdigs] at hmap
      | cons d t =>
        rw [hdigs] at hmap
        cases t with
        | nil =>
          simp only [List.map_cons, List.map_nil, List.cons.injEq, and_true] at hmap
          have hdlt : d < 10 := Nat.digits_lt_base (by norm_num) (by rw [hdigs]; simp)
          have : d = 0 := digitChar_inj_lt10 d hdlt 0 (by norm_num) (by simpa using hmap)
          rw [this]
        | cons d' t' => simp at hmap
    have := Nat.ofDigits_digits 10 a
    rw [hdig] at this
    simp [Nat.ofDigits] at this
    exact ha this.symm
  · have h₁ := repr_data_eq a ha
    have h₂ := repr_data_eq b hb
    rw [h₁, h₂] at hd
    have hmap : (Nat.digits 10 a).map Nat.digitChar = (Nat.digits 10 b).map Nat.digitChar := by
      have := congrArg List.reverse hd
      simpa using this
    have hdig : Nat.digits 10 a = Nat.digits 10 b :=
      map_digitChar_inj _ _ (fun d hd' => Nat.digits_lt_base (by norm_num) hd')
        (fun d hd' => Nat.digits_lt_base (by norm_num) hd') hmap
    have := congrArg (Nat.ofDigits 10) hdig
    rwa [Nat.ofDigits_digits, Nat.ofDigits_digits] at this

theorem digitChar_isToolChar : ∀ d < 10, isToolChar (Nat.digitChar d) = true := by decide

theorem repr_all_toolChar (n : ℕ) : ∀ c ∈ (Nat.repr n).data, isToolChar c = true := by
  by_cases hn : n = 0
  · rw [hn]; decide
  · rw [repr_data_eq n hn]
    intro c hc
    rw [List.mem_reverse, List.mem_map] at hc
    obtain ⟨d, hd, rfl⟩ := hc
    exact digitChar_isToolChar d (Nat.digits_lt_base (by norm_num) hd)

theorem repr_ne_nil (n : ℕ) : (Nat.repr n).data ≠ [] := by
  by_cases hn : n = 0
  · rw [hn]; decide
  · rw [repr_data_eq n hn]
    simp only [ne_eq, List.reverse_eq_nil_iff, List.map_eq_nil_iff]
    exact Nat.digits_ne_nil_iff_ne_zero.mpr hn

theorem toolNameLoop_some_not_mem (s : String) (used : List String) :
    ∀ (fuel : ℕ) (cand : String) (idx : ℕ) (c : String),
    toolNameLoop s used fuel cand idx = some c → c ∉ used := by
  intro fuel
  induction fuel with
  | zero => intro cand idx c h; simp [toolNameLoop] at h
  | succ f ih =>
    intro cand idx c h
    rw [toolNameLoop] at h
    by_cases hmem : cand ∈ used
    · rw [if_pos hmem] at h
      exact ih _ _ _ h
    · rw [if_neg hmem] at h
      cases h
      exact hmem

theorem examinedCandidates_length (s : String) :
    ∀ (fuel : ℕ) (cand : String) (idx : ℕ),
    (examinedCandidates s fuel cand idx).length = fuel := by
  intro fuel
  induction fuel with
  | zero => intro cand idx; rfl
  | succ f ih => intro cand idx; simp [examinedCandidates, ih]

theorem toolNameLoop_none_subset (s : String) (used : List String) :
    ∀ (fuel : ℕ) (cand : String) (idx : ℕ),
    toolNameLoop s used fuel cand idx = none →
    ∀ x ∈ examinedCandidates s fuel cand idx, x ∈ used := by
  intro fuel
  induction fuel with
  | zero => intro cand idx _ x hx; simp [examinedCandidates] at hx
  | succ f ih =>
    intro cand idx h x hx
    rw [toolNameLoop] at h
    by_cases hmem : cand ∈ used
    · rw [if_pos hmem] at h
      rcases (by simpa [examinedCandidates] using hx : x = cand ∨ _) with hx' | hx'
      · rw [hx']; exact hmem
      · exact ih _ _ h x hx'
    · rw [if_neg hmem] at h
      cases h

theorem examinedCandidates_suffix_eq (s : String) :
    ∀ (fuel idx : ℕ),
    examinedCandidates s fuel (suffixCandidate s idx) (idx + 1) =
      (List.range fuel).map (fun i => suffixCandidate s (idx + i)) := by
  intro fuel
  induction fuel with
  | zero => intro idx; rfl
  | succ f ih =>
    intro idx
    rw [examinedCandidates, ih (idx + 1), List.range_succ_eq_map]
    simp only [List.map_cons, List.map_map, Nat.add_zero]
    congr 1
    apply List.map_congr_left
    intro i _
    simp only [Function.comp_apply]
    congr 1
    omega

theorem string_data_inj {s t : String} (h : s.data = t.data) : s = t := by
  cases s
  cases t
  exact congrArg String.mk h

theorem suffixCandidate_inj (s : String) (a b : ℕ)
    (h : suffixCandidate s a = suffixCandidate s b) : a = b := by
  apply nat_repr_injective
  apply string_data_inj
  have hd : (suffixCandidate s a).data = (suffixCandidate s b).data := by rw [h]
  simp only [suffixCandidate, String.data_append, List.append_assoc] at hd
  exact List.append_cancel_left (List.append_cancel_left hd)

theorem suffixCandidate_ne_base (s : String) (k : ℕ) : s ≠ suffixCandidate s k := by
  intro h
  have hd : s.data.length = (suffixCandidate s k).data.length := by rw [← h]
  simp only [suffixCandidate, String.data_append, List.length_append] at hd
  have h1 : ("_" : String).data.length = 1 := by decide
  have h2 : 0 < (Nat.repr k).data.length := List.length_pos.mpr (repr_ne_nil k)
  omega

theorem examinedCandidates_nodup (s : String) (fuel : ℕ) :
    (examinedCandidates s fuel s 2).Nodup := by
  cases fuel with
  | zero => simp [examinedCandidates]
  | succ f =>
    rw [examinedCandidates, examinedCandidates_suffix_eq s f 2]
    refine List.Nodup.cons ?_ ?_
    · intro hmem
      rw [List.mem_map] at hmem
      obtain ⟨i, _, hi⟩ := hmem
      exact suffixCandidate_ne_base s (2 + i) hi.symm
    · refine List.Nodup.map ?_ (List.nodup_range f)
      intro a b hab
      have := suffixCandidate_inj s (2 + a) (2 + b) hab
      omega

theorem nodup_subset_length_le {l used : List String} (hnd : l.Nodup)
    (hsub : ∀ x ∈ l, x ∈ used) : l.length ≤ used.length := by
  have h1 : l.toFinset.card = l.length := List.toFinset_card_of_nodup hnd
  have h2 : l.toFinset ⊆ used.toFinset := by
    intro x hx
    rw [List.mem_toFinset] at hx ⊢
    exact hsub x hx
  calc l.length = l.toFinset.card := h1.symm
    _ ≤ used.toFinset.card := Finset.card_le_card h2
    _ ≤ used.length := List.toFinset_card_le used

theorem toolNameLoop_total (s : String) (used : List String) :
    ∃ c, toolNameLoop s used (used.length + 1) s 2 = some c := by
  cases h : toolNameLoop s used (used.length + 1) s 2 with
  | some c => exact ⟨c, rfl⟩
  | none =>
    exfalso
    have hsub := toolNameLoop_none_subset s used (used.length + 1) s 2 h
    have hnd := examinedCandidates_nodup s (used.length + 1)
    have hlen := examinedCandidates_length s (used.length + 1) s 2
    have := nodup_subset_length_le hnd hsub
    omega

theorem stripWith_sublist (p : Char → Bool) (l : List Char) :
    List.Sublist (stripWith p l) l := by
  rw [stripWith, rstripWith, lstripWith]
  have h1 : List.Sublist ((l.dropWhile p).reverse.dropWhile p) (l.dropWhile p).reverse :=
    List.dropWhile_sublist _
  have h2 := List.Sublist.reverse h1
  rw [List.reverse_reverse] at h2
  exact h2.trans (List.dropWhile_sublist _)

theorem sanitizeAlias_legal (aliasStr : String) :
    (sanitizeAlias aliasStr).data ≠ [] ∧ (sanitizeAlias aliasStr).data.all isToolChar = true := by
  rw [sanitizeAlias]
  by_cases hempty : stripWith (fun c => c == '_')
      (aliasStr.data.map (fun c => if isToolChar c then c else '_')) = []
  · rw [if_pos (by simpa using hempty)]
    constructor
    · decide
    · decide
  · rw [if_neg (by simpa using hempty)]
    refine ⟨hempty, ?_⟩
    rw [List.all_eq_true]
    intro c hc
    have hc' : c ∈ aliasStr.data.map (fun c => if isToolChar c then c else '_') :=
      (stripWith_sublist (fun c => c == '_') _).subset hc
    rw [List.mem_map] at hc'
    obtain ⟨c0, _, rfl⟩ := hc'
    by_cases hc0 : isToolChar c0 = true
    · rw [if_pos hc0]
      exact hc0
    · rw [if_neg hc0]
      decide

theorem suffixCandidate_legal (s : String) (k : ℕ)
    (hs : s.data.all isToolChar = true) :
    (suffixCandidate s k).data ≠ [] ∧ (suffixCandidate s k).data.all isToolChar = true := by
  have hd : (suffixCandidate s k).data = s.data ++ ['_'] ++ (Nat.repr k).data := by
    simp only [suffixCandidate, String.data_append, List.append_assoc]
  constructor
  · rw [hd]
    simp [repr_ne_nil k]
  · rw [hd, List.all_eq_true]
    intro c hc
    simp only [List.append_assoc, List.mem_append] at hc
    rcases hc with hc | hc | hc
    · exact (List.all_eq_true.mp hs) c hc
    · simp only [List.mem_singleton] at hc
      rw [hc]; decide
    · exact repr_all_toolChar k c hc

theorem toolNameLoop_some_mem_examined (s : String) (used : List String) :
    ∀ (fuel : ℕ) (cand : String) (idx : ℕ) (c : String),
    toolNameLoop s used fuel cand idx = some c →
    c ∈ examinedCandidates s fuel cand idx := by
  intro fuel
  induction fuel with
  | zero => intro cand idx c h; simp [toolNameLoop] at h
  | succ f ih =>
    intro cand idx c h
    rw [toolNameLoop] at h
    by_cases hmem : cand ∈ used
    · rw [if_pos hmem] at h
      simp only [examinedCandidates, List.mem_cons]
      exact Or.inr (ih _ _ _ h)
    · rw [if_neg hmem] at h
      cases h
      simp [examinedCandidates]

theorem examined_legal (s : String) (hs : s.data ≠ [] ∧ s.data.all isToolChar = true) :
    ∀ (fuel idx : ℕ) (c : String), c ∈ examinedCandidates s fuel s idx ∨
      (∃ k, c = suffixCandidate s k) ∨ c = s →
    (c ∈ examinedCandidates s fuel s idx → c.data ≠ [] ∧ c.data.all isToolChar = true) := by
  intro fuel idx c _ hc
  cases fuel with
  | zero => simp [examinedCandidates] at hc
  | succ f =>
    rw [examinedCandidates, examinedCandidates_suffix_eq] at hc
    rcases List.mem_cons.mp hc with h | h
    · rw [h]; exact hs
    · rw [List.mem_map] at h
      obtain ⟨i, _, rfl⟩ := h
      exact suffixCandidate_legal s (idx + i) hs.2

/-- `_make_tool_name` always succeeds and returns a name not in `used`:
the Python loop always terminates with a fresh candidate and the final
`re.fullmatch` guard never fires. -/
theorem make_tool_name_spec (aliasStr : String) (used : List String) :
    ∃ c, make_tool_name aliasStr used = .ok c ∧ c ∉ used := by
  obtain ⟨c, hc⟩ := toolNameLoop_total (sanitizeAlias aliasStr) used
  have hfresh := toolNameLoop_some_not_mem (sanitizeAlias aliasStr) used _ _ _ _ hc
  have hmem := toolNameLoop_some_mem_examined (sanitizeAlias aliasStr) used _ _ _ _ hc
  have hlegal := examined_legal (sanitizeAlias aliasStr) (sanitizeAlias_legal aliasStr)
    (used.length + 1) 2 c (Or.inl hmem) hmem
  refine ⟨c, ?_, hfresh⟩
  rw [make_tool_name]
  rw [hc]
  simp only [hlegal.2]
  rw [if_neg (by simp [hlegal.1])]

/-! ### Association-list (Python dict) lemmas -/

theorem dmem_iff_mem_dkeys {α : Type} (m : List (String × α)) (k : String) :
    dmem m k = true ↔ k ∈ dkeys m := by
  rw [dmem, dkeys, List.any_eq_true]
  constructor
  · rintro ⟨p, hp, hpk⟩
    rw [List.mem_map]
    exact ⟨p, hp, by simpa using hpk⟩
  · intro h
    rw [List.mem_map] at h
    obtain ⟨p, hp, hpk⟩ := h
    exact ⟨p, hp, by simpa using hpk⟩

theorem dmem_eq_false_iff {α : Type} (m : List (String × α)) (k : String) :
    dmem m k = false ↔ k ∉ dkeys m := by
  rw [← dmem_iff_mem_dkeys]
  cases dmem m k <;> simp

theorem dinsert_of_not_mem {α : Type} (m : List (String × α)) (k : String) (v : α)
    (h : dmem m k = false) : dinsert m k v = m ++ [(k, v)] := by
  rw [dinsert, if_neg (by simp [h])]

theorem dkeys_append {α : Type} (m₁ m₂ : List (String × α)) :
    dkeys (m₁ ++ m₂) = dkeys m₁ ++ dkeys m₂ := by
  simp [dkeys]

theorem dkeys_dinsert {α : Type} (m : List (String × α)) (k : String) (v : α) :
    dkeys (dinsert m k v) = if dmem m k then dkeys m else dkeys m ++ [k] := by
  rw [dinsert]
  by_cases h : dmem m k
  · rw [if_pos h, if_pos h, dkeys, dkeys, List.map_map]
    apply List.map_congr_left
    intro p _
    simp only [Function.comp_apply]
    by_cases hp : p.1 == k
    · rw [if_pos hp]
      exact (by simpa using hp : p.1 = k).symm
    · rw [if_neg hp]
  · rw [if_neg h, if_neg h, dkeys_append]
    rfl

theorem mem_dkeys_dinsert_self {α : Type} (m : List (String × α)) (k : String) (v : α) :
    k ∈ dkeys (dinsert m k v) := by
  rw [dkeys_dinsert]
  by_cases h : dmem m k
  · rw [if_pos h]
    exact (dmem_iff_mem_dkeys m k).mp h
  · rw [if_neg (by simp [h])]
    simp

theorem mem_dkeys_dinsert_mono {α : Type} (m : List (String × α)) (k k' : String)
    (v : α) (h : k' ∈ dkeys m) : k' ∈ dkeys (dinsert m k v) := by
  rw [dkeys_dinsert]
  by_cases hm : dmem m k
  · rwa [if_pos hm]
  · rw [if_neg (by simp [hm])]
    simp [h]

theorem dget?_cons_of_ne {α : Type} (p : String × α) (t : List (String × α))
    (k : String) (h : p.1 ≠ k) : dget? (p :: t) k = dget? t k := by
  rw [dget?, List.find?_cons_of_neg _ (by simp [h]), ← dget?]

theorem dget?_map_replace {α : Type} (m : List (String × α)) (k : String) (v : α) :
    dget? (m.map (fun p => if p.1 == k then (k, v) else p)) k =
      if dmem m k then some v else none := by
  induction m with
  | nil => simp [dget?, dmem]
  | cons p t ih =>
    by_cases hp : p.1 == k
    · simp only [List.map_cons, if_pos hp, dget?,
        List.find?_cons_of_pos _ (beq_self_eq_true k)]
      simp [dmem, hp]
    · simp only [List.map_cons, if_neg hp]
      rw [dget?, List.find?_cons_of_neg _ (by simpa using hp), ← dget?]
      rw [ih]
      have : dmem (p :: t) k = dmem t k := by simp [dmem, hp]
      rw [this]

theorem dget?_eq_none_of_not_mem {α : Type} (m : List (String × α)) (k : String)
    (h : dmem m k = false) : dget? m k = none := by
  rw [dget?]
  have hfind : m.find? (fun p => p.1 == k) = none := by
    rw [List.find?_eq_none]
    intro p hp hc
    rw [dmem] at h
    exact absurd hc (by simpa using List.any_eq_false.mp h p hp)
  rw [hfind]
  rfl

theorem dget?_append_right {α : Type} (m₁ m₂ : List (String × α)) (k : String)
    (h : dmem m₁ k = false) : dget? (m₁ ++ m₂) k = dget? m₂ k := by
  induction m₁ with
  | nil => simp
  | cons p t ih =>
    rw [dmem, List.any_cons, Bool.or_eq_false_iff] at h
    have hp : p.1 ≠ k := by
      intro hc
      simp [hc] at h
    rw [List.cons_append, dget?_cons_of_ne _ _ _ hp]
    exact ih h.2

theorem dget?_dinsert_self {α : Type} (m : List (String × α)) (k : String) (v : α) :
    dget? (dinsert m k v) k = some v := by
  rw [dinsert]
  by_cases h : dmem m k
  · rw [if_pos h, dget?_map_replace, if_pos h]
  · rw [if_neg (by simp [h]), dget?_append_right _ _ _ (by simpa using h)]
    simp [dget?]

theorem dget?_map_replace_ne {α : Type} (m : List (String × α)) (k k' : String)
    (v : α) (h : k' ≠ k) :
    dget? (m.map (fun p => if p.1 == k then (k, v) else p)) k' = dget? m k' := by
  induction m with
  | nil => rfl
  | cons p t ih =>
    by_cases hp : p.1 == k
    · have hp' : p.1 = k := by simpa using hp
      simp only [List.map_cons, if_pos hp]
      rw [dget?_cons_of_ne (k, v) _ _ (fun hc => h hc.symm),
        dget?_cons_of_ne p _ _ (by rw [hp']; exact fun hc => h hc.symm)]
      exact ih
    · simp only [List.map_cons, if_neg hp]
      by_cases hpk' : p.1 = k'
      · rw [dget?, List.find?_cons_of_pos _ (by simpa using hpk'),
          dget?, List.find?_cons_of_pos _ (by simpa using hpk')]
      · rw [dget?_cons_of_ne _ _ _ hpk', dget?_cons_of_ne _ _ _ hpk']
        exact ih

theorem dget?_dinsert_ne {α : Type} (m : List (String × α)) (k k' : String) (v : α)
    (h : k' ≠ k) : dget? (dinsert m k v) k' = dget? m k' := by
  rw [dinsert]
  by_cases hm : dmem m k
  · rw [if_pos hm, dget?_map_replace_ne m k k' v h]
  · rw [if_neg (by simp [hm])]
    clear hm
    induction m with
    | nil =>
      rw [List.nil_append, dget?_cons_of_ne _ _ _ (fun hc => h hc.symm)]
    | cons p t ih =>
      by_cases hpk' : p.1 = k'
      · rw [List.cons_append, dget?, List.find?_cons_of_pos _ (by simpa using hpk'),
          dget?, List.find?_cons_of_pos _ (by simpa using hpk')]
      · rw [List.cons_append, dget?_cons_of_ne _ _ _ hpk', dget?_cons_of_ne _ _ _ hpk']
        exact ih

/-- `_make_tool_name` never returns a name already in `used`. -/
theorem make_tool_name_fresh (aliasStr : String) (used : List String) (c : String)
    (h : make_tool_name aliasStr used = .ok c) : c ∉ used := by
  obtain ⟨c', hok, hfresh⟩ := make_tool_name_spec aliasStr used
  rw [hok] at h
  cases h
  exact hfresh

/-! ### Registry construction invariants -/

/-- Invariant of the alias loop: the keys of `tool_entries` are exactly the
`used_tool_names`, each entry is keyed by its own tool name, and the used
names stay pairwise distinct. -/
theorem aliasLoop_invariant (bps : List (String × AgentBlueprint)) :
    ∀ (aliases : List (String × String)) (entries : List (String × AgentAliasEntry))
      (byAgent : List (String × List String)) (used : List String)
      (E : List (String × AgentAliasEntry)) (B : List (String × List String))
      (U : List String),
    aliasLoop bps aliases entries byAgent used = .ok (E, B, U) →
    dkeys entries = used → (∀ p ∈ entries, p.1 = p.2.tool_name) → used.Nodup →
    dkeys E = U ∧ (∀ p ∈ E, p.1 = p.2.tool_name) ∧ U.Nodup := by
  intro aliases
  induction aliases with
  | nil =>
    intro entries byAgent used E B U h h1 h2 h3
    rw [aliasLoop] at h
    cases h
    exact ⟨h1, h2, h3⟩
  | cons ab rest ih =>
    intro entries byAgent used E B U h h1 h2 h3
    obtain ⟨aliasName, agentId⟩ := ab
    rw [aliasLoop] at h
    split at h
    · cases h
    · rename_i bp hbp
      split at h
      · cases h
      · rename_i tool_name hmt
        split at h
        · cases h
        · rename_i description hsum
          have hfresh : tool_name ∉ used := make_tool_name_fresh _ _ _ hmt
          have hdm : dmem entries tool_name = false := by
            rw [dmem_eq_false_iff, h1]
            exact hfresh
          refine ih _ _ _ E B U h ?_ ?_ ?_
          · rw [dinsert_of_not_mem _ _ _ hdm, dkeys_append, h1]
            rfl
          · intro p hp
            rw [dinsert_of_not_mem _ _ _ hdm] at hp
            rcases List.mem_append.mp hp with hp' | hp'
            · exact h2 p hp'
            · rw [List.mem_singleton] at hp'
              rw [hp']
          · refine List.Nodup.append h3 (List.nodup_singleton _) ?_
            intro x hx hx'
            rw [List.mem_singleton] at hx'
            rw [hx'] at hx
            exact hfresh hx

/-- Destructures a successful `buildRegistry` run into its phases. -/
theorem buildRegistry_ok_parts (config : SubAgentConfig) (r : Registry)
    (h : buildRegistry config = .ok r) :
    ∃ agents E B U cli,
      available_agents config = .ok agents ∧
      config.aliases.isEmpty = false ∧
      aliasLoop (blueprintsOf agents) config.aliases []
        (agents.map (fun p => (p.1, ([] : List String)))) [] = .ok (E, B, U) ∧
      fallbackLoop U (blueprintsOf agents) (cliFromEntries E []) = .ok cli ∧
      r = { tool_entries := E, aliases_by_agent := B, cli_aliases := cli,
            tool_definitions := toolDefinitionsOf E } := by
  rw [buildRegistry] at h
  split at h
  · cases h
  · rename_i agents hA
    split at h
    · cases h
    · rename_i hempty
      split at h
      · cases h
      · rename_i E B U hL
        split at h
        · cases h
        · rename_i cli hF
          cases h
          exact ⟨agents, E, B, U, cli, hA, by simpa using hempty, hL, hF, rfl⟩

/-- C1: For every configuration whose alias table contains any set of
distinct alias strings, registry construction assigns pairwise-distinct
tool names (sanitize to `[A-Za-z0-9_-]`, strip underscores, fall back to
`agent`, then first free numeric suffix `_2`, `_3`, …); in particular
aliases `a!b` and `a#b` both sanitize to `a_b` and the second registered
becomes `a_b_2`. -/
theorem c1_tool_names_pairwise_distinct :
    (∀ (config : SubAgentConfig) (r : Registry), buildRegistry config = .ok r →
      (r.tool_entries.map (fun p => p.2.tool_name)).Nodup) ∧
    (buildRegistry cfgCollidingAliases).toOption.map
        (fun r => r.tool_entries.map (fun p => p.2.tool_name)) = some ["a_b", "a_b_2"] := by
  constructor
  · intro config r h
    obtain ⟨agents, E, B, U, cli, hA, hne, hL, hF, hr⟩ := buildRegistry_ok_parts config r h
    obtain ⟨hk, hown, hnd⟩ := aliasLoop_invariant _ _ _ _ _ E B U hL rfl
      (fun p hp => absurd hp (List.not_mem_nil p)) List.nodup_nil
    have hmap : E.map (fun p => p.2.tool_name) = dkeys E := by
      rw [dkeys]
      apply List.map_congr_left
      intro p hp
      exact (hown p hp).symm
    rw [hr]
    dsimp only
    rw [hmap, hk]
    exact hnd
  · decide

/-- Witness for C1: the colliding-alias example builds, with distinct names. -/
theorem c1_tool_names_pairwise_distinct_witness :
    buildRegistry cfgCollidingAliases = .ok (regOf cfgCollidingAliases) ∧
    ((regOf cfgCollidingAliases).tool_entries.map (fun p => p.2.tool_name)).Nodup :=
  ⟨by decide, c1_tool_names_pairwise_distinct.1 cfgCollidingAliases
    (regOf cfgCollidingAliases) (by decide)⟩

/-- `_summarize_agent` succeeds whenever the instructions are nonempty
after stripping (the spec's data-model invariant for loaded agents). -/
theorem summarize_agent_ok (s : AgentSettings) (h : pyStrip s.instructions ≠ "") :
    ∃ d, summarize_agent s = .ok d := by
  rw [summarize_agent]
  cases hs : splitlines (pyStrip s.instructions) with
  | nil => exact absurd hs (splitlines_ne_nil _ h)
  | cons l0 t => exact ⟨_, rfl⟩

/-- If some alias in the list targets an unknown agent id, and every
blueprint has summarizable instructions, the alias loop fails with a
configuration error. -/
theorem aliasLoop_bad_alias (bps : List (String × AgentBlueprint)) :
    ∀ (aliases : List (String × String)) (entries : List (String × AgentAliasEntry))
      (byAgent : List (String × List String)) (used : List String),
    (∃ p ∈ aliases, dget? bps p.2 = none) →
    (∀ pr ∈ bps, pyStrip pr.2.settings.instructions ≠ "") →
    ∃ e, aliasLoop bps aliases entries byAgent used = .error e ∧ e.isConfigError = true := by
  intro aliases
  induction aliases with
  | nil =>
    intro entries byAgent used hbad _
    obtain ⟨p, hp, _⟩ := hbad
    exact absurd hp (List.not_mem_nil p)
  | cons ab rest ih =>
    intro entries byAgent used hbad hinstr
    obtain ⟨aliasName, agentId⟩ := ab
    cases hbp : dget? bps agentId with
    | none =>
      refine ⟨.unknownAliasTarget aliasName agentId, ?_, rfl⟩
      simp only [aliasLoop, hbp]
    | some bp =>
      obtain ⟨c, hmt, _⟩ := make_tool_name_spec aliasName used
      have hbpmem : ∃ pr ∈ bps, pr.2 = bp := by
        rw [dget?] at hbp
        cases hfind : bps.find? (fun p => p.1 == agentId) with
        | none => rw [hfind] at hbp; cases hbp
        | some pr =>
          rw [hfind] at hbp
          refine ⟨pr, List.mem_of_find?_eq_some hfind, ?_⟩
          simpa using hbp
      obtain ⟨pr, hprmem, hpreq⟩ := hbpmem
      obtain ⟨d, hsum⟩ := summarize_agent_ok bp.settings (by rw [← hpreq]; exact hinstr pr hprmem)
      have hbadrest : ∃ p ∈ rest, dget? bps p.2 = none := by
        obtain ⟨p, hp, hpnone⟩ := hbad
        rcases List.mem_cons.mp hp with hp' | hp'
        · rw [hp'] at hpnone
          rw [hpnone] at hbp
          cases hbp
        · exact ⟨p, hp', hpnone⟩
      obtain ⟨e, hrec, hcfg⟩ := ih _ _ _ hbadrest hinstr
      refine ⟨e, ?_, hcfg⟩
      simp only [aliasLoop, hbp, hmt, hsum]
      exact hrec

/-- C6: registry construction on an empty alias table raises a
configuration error regardless of the agents; and an alias targeting an
unknown agent id fails with a configuration error at construction (given
the data-model invariant that instructions are nonempty after trimming). -/
theorem c6_no_aliases_or_bad_target_is_config_error :
    (∀ config : SubAgentConfig, config.aliases = [] →
      ∃ e, buildRegistry config = .error e ∧ e.isConfigError = true) ∧
    (∀ config : SubAgentConfig,
      (∃ p ∈ config.aliases, p.2 ∉ dkeys (agent_map config)) →
      (∀ q ∈ agent_map config, pyStrip q.2.instructions ≠ "") →
      ∃ e, buildRegistry config = .error e ∧ e.isConfigError = true) := by
  constructor
  · intro config hempty
    by_cases hm : agent_map config = []
    · refine ⟨.noAgents, ?_, rfl⟩
      simp only [buildRegistry, available_agents, if_pos hm]
    · refine ⟨.noAliases, ?_, rfl⟩
      simp only [buildRegistry, available_agents, if_neg hm, hempty, List.isEmpty_nil, if_true]
  · intro config hbad hinstr
    by_cases hm : agent_map config = []
    · refine ⟨.noAgents, ?_, rfl⟩
      simp only [buildRegistry, available_agents, if_pos hm]
    · have hne : config.aliases.isEmpty = false := by
        obtain ⟨p, hp, _⟩ := hbad
        cases halias : config.aliases with
        | nil => rw [halias] at hp; exact absurd hp (List.not_mem_nil p)
        | cons q t => simp
      have hbad' : ∃ p ∈ config.aliases, dget? (blueprintsOf (agent_map config)) p.2 = none := by
        obtain ⟨p, hp, hpnot⟩ := hbad
        refine ⟨p, hp, dget?_eq_none_of_not_mem _ _ ?_⟩
        rw [dmem_eq_false_iff]
        intro hc
        apply hpnot
        rw [blueprintsOf, dkeys, List.map_map] at hc
        rw [List.mem_map] at hc
        obtain ⟨q, hq, hqe⟩ := hc
        rw [dkeys, List.mem_map]
        exact ⟨q, hq, hqe⟩
      have hinstr' : ∀ pr ∈ blueprintsOf (agent_map config),
          pyStrip pr.2.settings.instructions ≠ "" := by
        intro pr hpr
        rw [blueprintsOf, List.mem_map] at hpr
        obtain ⟨q, hq, hqe⟩ := hpr
        rw [← hqe]
        exact hinstr q hq
      obtain ⟨e, hL, hcfg⟩ := aliasLoop_bad_alias (blueprintsOf (agent_map config))
        config.aliases [] ((agent_map config).map (fun p => (p.1, ([] : List String)))) []
        hbad' hinstr'
      refine ⟨e, ?_, hcfg⟩
      simp only [buildRegistry, available_agents, if_neg hm, hne, Bool.false_eq_true,
        if_false, hL]

/-- Witness for C6 at two concrete configurations. -/
theorem c6_no_aliases_or_bad_target_is_config_error_witness :
    (cfgNoAliases.aliases = [] ∧
      ∃ e, buildRegistry cfgNoAliases = .error e ∧ e.isConfigError = true) ∧
    ((∃ p ∈ cfgBadAliasTarget.aliases, p.2 ∉ dkeys (agent_map cfgBadAliasTarget)) ∧
      ∃ e, buildRegistry cfgBadAliasTarget = .error e ∧ e.isConfigError = true) :=
  ⟨⟨rfl, c6_no_aliases_or_bad_target_is_config_error.1 cfgNoAliases rfl⟩,
   ⟨by decide, c6_no_aliases_or_bad_target_is_config_error.2 cfgBadAliasTarget
     (by decide) (by decide)⟩⟩

/-- C5: the post-validation stage of `load_config` fails with a
configuration error exactly when the schema-valid configuration lacks a
`"codex"` entry in `mcp_servers`, however valid the rest is; with the
entry present the check passes the configuration through. -/
theorem c5_codex_transport_mandatory (cfg : SubAgentConfig) :
    ("codex" ∉ dkeys cfg.mcp_servers →
      load_config_postcheck cfg = .error .missingCodexServer ∧
      RegError.missingCodexServer.isConfigError = true) ∧
    ("codex" ∈ dkeys cfg.mcp_servers → load_config_postcheck cfg = .ok cfg) := by
  constructor
  · intro h
    have hm : dmem cfg.mcp_servers "codex" = false := (dmem_eq_false_iff _ _).mpr h
    rw [load_config_postcheck, hm]
    exact ⟨rfl, rfl⟩
  · intro h
    have hm : dmem cfg.mcp_servers "codex" = true := (dmem_iff_mem_dkeys _ _).mpr h
    rw [load_config_postcheck, hm]
    rfl

/-- Witness for C5 at a codex-less and a codex-bearing configuration. -/
theorem c5_codex_transport_mandatory_witness :
    ("codex" ∉ dkeys cfgNoCodex.mcp_servers ∧
      load_config_postcheck cfgNoCodex = .error .missingCodexServer ∧
      RegError.missingCodexServer.isConfigError = true) ∧
    ("codex" ∈ dkeys cfgNoAliases.mcp_servers ∧
      load_config_postcheck cfgNoAliases = .ok cfgNoAliases) :=
  ⟨⟨by decide, (c5_codex_transport_mandatory cfgNoCodex).1 (by decide)⟩,
   ⟨by decide, (c5_codex_transport_mandatory cfgNoAliases).2 (by decide)⟩⟩

/-- C10: `resolve_agent` treats an explicit empty-string identifier exactly
like `None` — Python's `if agent_id:` truthiness check skips the explicit
lookup, so `""` falls through to default-agent selection and never raises
an unknown-agent error of its own. -/
theorem c10_resolve_agent_empty_string_is_default (config : SubAgentConfig) :
    resolve_agent config (some "") = resolve_agent config none := by
  cases hA : available_agents config with
  | error e => simp [resolve_agent, hA]
  | ok agents => simp [resolve_agent, hA]

theorem dget?_some_of_mem_keys {α : Type} (m : List (String × α)) (k : String)
    (h : k ∈ dkeys m) : ∃ v, dget? m k = some v := by
  induction m with
  | nil => simp [dkeys] at h
  | cons p t ih =>
    by_cases hp : p.1 = k
    · exact ⟨p.2, by rw [dget?, List.find?_cons_of_pos _ (by simpa using hp)]; rfl⟩
    · rw [dkeys, List.map_cons, List.mem_cons] at h
      rcases h with h | h
      · exact absurd h.symm hp
      · rw [dget?_cons_of_ne _ _ _ hp]
        exact ih h

theorem dget?_some_implies_ne_nil {α : Type} (m : List (String × α)) (k : String)
    (v : α) (h : dget? m k = some v) : m ≠ [] := by
  intro hc
  rw [hc] at h
  cases h

/-- C4: `resolve_agent(None)` returns the default agent when
`default_agent_id` is set and names an existing agent; with no default it
returns the lexicographically smallest agent id; an explicit identifier is
first mapped through the alias table and then looked up, failing with a
configuration error when the result is not a configured agent. -/
theorem c4_resolve_agent_selection :
    (∀ (config : SubAgentConfig) (d : String) (s : AgentSettings),
      config.default_agent_id = some d → d ≠ "" →
      dget? (agent_map config) d = some s →
      resolve_agent config none = .ok (d, s)) ∧
    (∀ config : SubAgentConfig,
      config.default_agent_id = none → agent_map config ≠ [] →
      ∃ m s, resolve_agent config none = .ok (m, s) ∧
        m ∈ dkeys (agent_map config) ∧ (∀ k ∈ dkeys (agent_map config), keyLe m k) ∧
        dget? (agent_map config) m = some s) ∧
    (∀ (config : SubAgentConfig) (aid : String) (s : AgentSettings), aid ≠ "" →
      dget? (agent_map config) ((dget? config.aliases aid).getD aid) = some s →
      resolve_agent config (some aid) =
        .ok ((dget? config.aliases aid).getD aid, s)) ∧
    (∀ (config : SubAgentConfig) (aid : String), aid ≠ "" → agent_map config ≠ [] →
      dget? (agent_map config) ((dget? config.aliases aid).getD aid) = none →
      resolve_agent config (some aid) = .error (.agentNotFound aid) ∧
      (RegError.agentNotFound aid).isConfigError = true) := by
  refine ⟨?_, ?_, ?_, ?_⟩
  · intro config d s hd hdne hs
    have hm : agent_map config ≠ [] := dget?_some_implies_ne_nil _ _ _ hs
    simp only [resolve_agent, available_agents, if_neg hm, defaultAgentBranch, hd,
      if_neg hdne, hs]
  · intro config hd hm
    cases hsorted : List.insertionSort keyLe (dkeys (agent_map config)) with
    | nil =>
      exfalso
      have hperm := List.perm_insertionSort keyLe (dkeys (agent_map config))
      rw [hsorted] at hperm
      have : dkeys (agent_map config) = [] := hperm.symm.eq_nil
      rw [dkeys] at this
      exact hm (List.map_eq_nil_iff.mp this)
    | cons m t =>
      have hmem : m ∈ dkeys (agent_map config) := by
        have hperm := List.perm_insertionSort keyLe (dkeys (agent_map config))
        rw [hsorted] at hperm
        exact hperm.mem_iff.mp (List.mem_cons_self m t)
      obtain ⟨s, hget⟩ := dget?_some_of_mem_keys _ _ hmem
      refine ⟨m, s, ?_, hmem, ?_, hget⟩
      · simp only [resolve_agent, available_agents, if_neg hm, defaultAgentBranch, hd,
          lexSmallestBranch, hsorted, hget]
      · intro k hk
        have hperm := List.perm_insertionSort keyLe (dkeys (agent_map config))
        rw [hsorted] at hperm
        have hsort := List.sorted_insertionSort keyLe (dkeys (agent_map config))
        rw [hsorted] at hsort
        rcases List.mem_cons.mp (hperm.mem_iff.mpr hk) with hk' | hk'
        · rw [hk']
          exact le_refl m.data
        · exact (List.sorted_cons.mp hsort).1 k hk'
  · intro config aid s haid hs
    have hm : agent_map config ≠ [] := dget?_some_implies_ne_nil _ _ _ hs
    simp only [resolve_agent, available_agents, if_neg hm, if_neg haid, hs]
  · intro config aid haid hm hnone
    constructor
    · simp only [resolve_agent, available_agents, if_neg hm, if_neg haid, hnone]
    · rfl

/-- Witness for C4: the spec's `workflow`/`other` example, alias lookup,
and the unknown-agent failure. -/
theorem c4_resolve_agent_selection_witness :
    (resolve_agent cfgWorkflowDefault none = .ok ("workflow", exampleSettings)) ∧
    (∃ m s, resolve_agent cfgWorkflowNoDefault none = .ok (m, s) ∧
      m ∈ dkeys (agent_map cfgWorkflowNoDefault) ∧
      (∀ k ∈ dkeys (agent_map cfgWorkflowNoDefault), keyLe m k) ∧
      dget? (agent_map cfgWorkflowNoDefault) m = some s) ∧
    (resolve_agent cfgWorkflowNoDefault (some "w") = .ok ("workflow", exampleSettings)) ∧
    (resolve_agent cfgWorkflowNoDefault (some "zzz") = .error (.agentNotFound "zzz") ∧
      (RegError.agentNotFound "zzz").isConfigError = true) :=
  ⟨c4_resolve_agent_selection.1 cfgWorkflowDefault "workflow" exampleSettings rfl
     (by decide) (by decide),
   c4_resolve_agent_selection.2.1 cfgWorkflowNoDefault rfl (by decide),
   c4_resolve_agent_selection.2.2.1 cfgWorkflowNoDefault "w" exampleSettings
     (by decide) (by decide),
   c4_resolve_agent_selection.2.2.2 cfgWorkflowNoDefault "zzz" (by decide) (by decide)
     (by decide)⟩

theorem dget?_some_spec {α : Type} (m : List (String × α)) (k : String) (v : α)
    (h : dget? m k = some v) : ∃ p ∈ m, p.1 = k ∧ p.2 = v := by
  rw [dget?] at h
  cases hfind : m.find? (fun p => p.1 == k) with
  | none => rw [hfind] at h; cases h
  | some p =>
    rw [hfind] at h
    exact ⟨p, List.mem_of_find?_eq_some hfind, by simpa using List.find?_some hfind,
      by simpa using h⟩

/-- C7: every descriptor in `tool_definitions` round-trips: resolving its
name through `resolve_tool_name` succeeds and yields an entry whose
`tool_name` equals the descriptor's name; and `tool_definitions` is sorted
by tool name. -/
theorem c7_tool_definitions_roundtrip_and_sorted
    (config : SubAgentConfig) (r : Registry) (h : buildRegistry config = .ok r) :
    (∀ d ∈ r.tool_definitions,
      ∃ e, resolve_tool_name r d.name = .ok e ∧ e.tool_name = d.name) ∧
    List.Pairwise (fun a b : ToolDef => a.name.data ≤ b.name.data) r.tool_definitions := by
  obtain ⟨agents, E, B, U, cli, hA, hne, hL, hF, hr⟩ := buildRegistry_ok_parts config r h
  obtain ⟨hk, hown, hnd⟩ := aliasLoop_invariant _ _ _ _ _ E B U hL rfl
    (fun p hp => absurd hp (List.not_mem_nil p)) List.nodup_nil
  subst hr
  constructor
  · intro d hd
    dsimp only at hd ⊢
    rw [toolDefinitionsOf, List.mem_map] at hd
    obtain ⟨e', he'sorted, rfl⟩ := hd
    have he'mem : e' ∈ E.map Prod.snd :=
      (List.perm_insertionSort entryLe (E.map Prod.snd)).mem_iff.mp he'sorted
    obtain ⟨p, hpmem, hpsnd⟩ := List.mem_map.mp he'mem
    have hkp : p.1 = e'.tool_name := by rw [hown p hpmem, hpsnd]
    have hmemk : e'.tool_name ∈ dkeys E := by
      rw [dkeys, List.mem_map]
      exact ⟨p, hpmem, hkp⟩
    obtain ⟨v, hv⟩ := dget?_some_of_mem_keys E e'.tool_name hmemk
    obtain ⟨q, hqmem, hq1, hq2⟩ := dget?_some_spec E e'.tool_name v hv
    refine ⟨v, ?_, ?_⟩
    · simp only [resolve_tool_name, hv]
    · rw [← hq2, ← hown q hqmem, hq1]
  · dsimp only
    rw [toolDefinitionsOf]
    apply List.Pairwise.map
    · intro a b hab
      exact hab
    · exact List.sorted_insertionSort entryLe (E.map Prod.snd)

/-- Witness for C7 at the colliding-alias example registry. -/
theorem c7_tool_definitions_roundtrip_and_sorted_witness :
    buildRegistry cfgCollidingAliases = .ok (regOf cfgCollidingAliases) ∧
    ((∀ d ∈ (regOf cfgCollidingAliases).tool_definitions,
      ∃ e, resolve_tool_name (regOf cfgCollidingAliases) d.name = .ok e ∧
        e.tool_name = d.name) ∧
    List.Pairwise (fun a b : ToolDef => a.name.data ≤ b.name.data)
      (regOf cfgCollidingAliases).tool_definitions) :=
  ⟨by decide, c7_tool_definitions_roundtrip_and_sorted cfgCollidingAliases
    (regOf cfgCollidingAliases) (by decide)⟩

theorem parseManifestLoop_error_eq (lines : List String) :
    ∀ (m : List (String × String)) (e : RegError),
    parseManifestLoop lines m = .error e → e = .skillManifestSyntax := by
  induction lines with
  | nil => intro m e h; cases h
  | cons raw rest ih =>
    intro m e h
    rw [parseManifestLoop] at h
    split at h
    · exact ih _ _ h
    · split at h
      · exact ih _ _ h
      · cases h
        rfl

theorem parse_skill_manifest_error_isConfig (lines : List String) (e : RegError)
    (h : _parse_skill_manifest lines = .error e) : e.isConfigError = true := by
  cases hloop : parseManifestLoop lines [] with
  | error e2 =>
    simp only [_parse_skill_manifest, hloop] at h
    cases h
    rw [parseManifestLoop_error_eq lines [] e hloop]
    rfl
  | ok manifest =>
    simp only [_parse_skill_manifest, hloop] at h
    split at h
    · cases h
      rfl
    · split at h
      · cases h
        rfl
      · cases h

/-- C8: a `SKILL.md` whose left-trimmed first line is the `---` opener but
that has no closing `---`-only line fails with the missing-closing-delimiter
configuration error; and when a closing delimiter exists but the text after
it trims to empty, parsing fails with a configuration error — in both cases
no manifest/body pair is produced. -/
theorem c8_skill_file_delimiter_errors :
    (∀ (content l0 : String) (rest : List String),
      splitlines (pyLstrip content) = l0 :: rest →
      pyStrip l0 = "---" →
      (∀ l ∈ rest, pyStrip l ≠ "---") →
      _split_skill_file content = .error .skillMissingClosingDelimiter ∧
      RegError.skillMissingClosingDelimiter.isConfigError = true) ∧
    (∀ (content l0 : String) (rest : List String) (j : ℕ),
      splitlines (pyLstrip content) = l0 :: rest →
      pyStrip l0 = "---" →
      rest.findIdx? (fun l => pyStrip l == "---") = some j →
      pyStrip (joinNL (rest.drop (j + 1))) = "" →
      ∃ e, _split_skill_file content = .error e ∧ e.isConfigError = true) := by
  constructor
  · intro content l0 rest hsplit hl0 hrest
    have hidx : rest.findIdx? (fun l => pyStrip l == "---") = none := by
      rw [List.findIdx?_eq_none_iff]
      intro l hl
      simpa using hrest l hl
    constructor
    · simp only [_split_skill_file, hsplit, if_pos hl0, hidx]
    · rfl
  · intro content l0 rest j hsplit hl0 hidx hbody
    cases hman : _parse_skill_manifest (rest.take j) with
    | error e =>
      refine ⟨e, ?_, parse_skill_manifest_error_isConfig _ e hman⟩
      simp only [_split_skill_file, hsplit, if_pos hl0, hidx, hman]
    | ok manifest =>
      refine ⟨.skillEmptyBody, ?_, rfl⟩
      simp only [_split_skill_file, hsplit, if_pos hl0, hidx, hman, hbody]
      simp

/-- Witness for C8 at two concrete `SKILL.md` contents. -/
theorem c8_skill_file_delimiter_errors_witness :
    (splitlines (pyLstrip "---\nname: x") = ["---", "name: x"] ∧
      _split_skill_file "---\nname: x" = .error .skillMissingClosingDelimiter ∧
      RegError.skillMissingClosingDelimiter.isConfigError = true) ∧
    (splitlines (pyLstrip "---\nname: x\n---\n \n") = ["---", "name: x", "---", " "] ∧
      ∃ e, _split_skill_file "---\nname: x\n---\n \n" = .error e ∧
        e.isConfigError = true) :=
  ⟨⟨by decide, c8_skill_file_delimiter_errors.1 "---\nname: x" "---" ["name: x"]
      (by decide) (by decide) (by decide)⟩,
   ⟨by decide, c8_skill_file_delimiter_errors.2 "---\nname: x\n---\n \n" "---"
      ["name: x", "---", " "] 1 (by decide) (by decide) (by decide) (by decide)⟩⟩

theorem startsWithChars_append (pat suf : List Char) :
    startsWithChars pat (pat ++ suf) = true := by
  induction pat with
  | nil => rfl
  | cons c rest ih => simp [startsWithChars, ih]

theorem containsSubstring_of_startsWith (pat l : List Char)
    (h : startsWithChars pat l = true) : containsSubstring pat l = true := by
  cases l with
  | nil =>
    cases pat with
    | nil => rfl
    | cons p ps => cases h
  | cons c rest => simp [containsSubstring, h]

theorem containsSubstring_append_left (pat pre l : List Char)
    (h : containsSubstring pat l = true) :
    containsSubstring pat (pre ++ l) = true := by
  induction pre with
  | nil => simpa using h
  | cons c rest ih => simp [containsSubstring, ih]

theorem header_infix_stanza (config_path : String) :
    containsSubstring stanza_header.data (codex_stanza config_path).data = true := by
  have hd : (codex_stanza config_path).data = stanza_header.data ++
      ("\n" ++ "command = \"codex-sub-agent\"\n" ++
        ("args = [\"--config\", \"" ++ config_path ++ "\"]\n") ++
        "startup_timeout_sec = 60\n" ++
        "client_session_timeout_seconds = 3600\n").data := by
    simp only [codex_stanza, String.data_append, List.append_assoc]
  rw [hd]
  exact containsSubstring_of_startsWith _ _ (startsWithChars_append _ _)

theorem header_infix_content (config_path : String) (existing : Option String) :
    containsSubstring stanza_header.data
      ((configure_codex config_path existing).content).data = true := by
  cases existing with
  | none =>
    show containsSubstring stanza_header.data (codex_stanza config_path).data = true
    exact header_infix_stanza config_path
  | some existing_text =>
    rw [configure_codex]
    by_cases hc : containsSubstring stanza_header.data existing_text.data = true
    · rw [if_pos hc]
      exact hc
    · rw [if_neg hc]
      dsimp only
      rw [show (existing_text ++ (if endsWithNewline existing_text then "" else "\n") ++
          "\n" ++ codex_stanza config_path).data =
          (existing_text ++ (if endsWithNewline existing_text then "" else "\n") ++
            "\n").data ++ (codex_stanza config_path).data from by
        simp only [String.data_append]]
      exact containsSubstring_append_left _ _ _ (header_infix_stanza config_path)

/-- C9: `configure` is idempotent on its target file: a second invocation
with the same arguments sees the fixed stanza header line
`[mcp_servers.codex_sub_agent]` in the file, reports that the file already
contains the stanza, returns success, and leaves the content byte-identical
to the content after the first call. -/
theorem c9_configure_idempotent (config_path : String) (existing : Option String) :
    configure_codex config_path (some ((configure_codex config_path existing).content)) =
      { content := (configure_codex config_path existing).content,
        already_contains := true, exit_code := 0 } := by
  rw [configure_codex]
  rw [if_pos (header_infix_content config_path existing)]

/-- C3 (code bug): acquiring transports for a run where a later transport's
bearer-token environment variable is unset raises after the earlier stdio
transport was already entered, and the whole run performs no shutdown
attempt on it — the trace holds one `enter "codex"` and no `exit "codex"`.
On the success path the same configuration closes both transports (LIFO),
showing the missing cleanup is specific to the failing acquisition path. -/
theorem c3_partial_acquisition_leaks_transport :
    (run_agent_workflow cfgPartialAcquisition [] ["codex", "web"] true =
      (.error (.missingTokenEnv "WEB_TOKEN" "web"), [.enter "codex"])) ∧
    ((run_agent_workflow cfgPartialAcquisition [] ["codex", "web"] true).2.count
        (.enter "codex") = 1 ∧
      (run_agent_workflow cfgPartialAcquisition [] ["codex", "web"] true).2.count
        (.exit "codex") = 0) ∧
    (run_agent_workflow cfgPartialAcquisition [("WEB_TOKEN", "token")]
        ["codex", "web"] true =
      (.ok (), [.enter "codex", .enter "web", .exit "web", .exit "codex"])) := by
  decide

/-! ### C2: fallback entries and CLI reachability -/

theorem dmem_false_iff_dget?_none {α : Type} (m : List (String × α)) (k : String) :
    dmem m k = false ↔ dget? m k = none := by
  constructor
  · exact dget?_eq_none_of_not_mem m k
  · intro h
    cases hm : dmem m k
    · rfl
    · obtain ⟨v, hv⟩ := dget?_some_of_mem_keys m k ((dmem_iff_mem_dkeys m k).mp hm)
      rw [hv] at h
      cases h

theorem fallbackLoop_mono (used : List String) :
    ∀ (bps : List (String × AgentBlueprint)) (cli cli' : List (String × AgentAliasEntry)),
    fallbackLoop used bps cli = .ok cli' →
    ∀ k, k ∈ dkeys cli → k ∈ dkeys cli' := by
  intro bps
  induction bps with
  | nil =>
    intro cli cli' h k hk
    rw [fallbackLoop] at h
    cases h
    exact hk
  | cons pr rest ih =>
    intro cli cli' h k hk
    obtain ⟨id0, bp0⟩ := pr
    by_cases hm : dmem cli id0 = true
    · simp only [fallbackLoop, hm, if_true] at h
      exact ih _ _ h k hk
    · have hm' : dmem cli id0 = false := by simpa using hm
      cases hmt : make_tool_name id0 used with
      | error e =>
        simp only [fallbackLoop, hm', hmt, Bool.false_eq_true, if_false] at h
        cases h
      | ok c0 =>
        cases hsum : summarize_agent bp0.settings with
        | error e =>
          simp only [fallbackLoop, hm', hmt, hsum, Bool.false_eq_true, if_false] at h
          cases h
        | ok d0 =>
          simp only [fallbackLoop, hm', hmt, hsum, Bool.false_eq_true, if_false] at h
          exact ih _ _ h k
            (mem_dkeys_dinsert_mono _ _ _ _ (mem_dkeys_dinsert_mono _ _ _ _ hk))

theorem fallbackLoop_covers (used : List String) :
    ∀ (bps : List (String × AgentBlueprint)) (cli cli' : List (String × AgentAliasEntry)),
    fallbackLoop used bps cli = .ok cli' →
    ∀ (id : String) (bp : AgentBlueprint), (id, bp) ∈ bps → id ∈ dkeys cli' := by
  intro bps
  induction bps with
  | nil =>
    intro cli cli' h id bp hmem
    exact absurd hmem (List.not_mem_nil _)
  | cons pr rest ih =>
    intro cli cli' h id bp hmem
    obtain ⟨id0, bp0⟩ := pr
    by_cases hm : dmem cli id0 = true
    · simp only [fallbackLoop, hm, if_true] at h
      rcases List.mem_cons.mp hmem with heq | hrest
      · obtain ⟨h1, _⟩ : id = id0 ∧ bp = bp0 := by simpa using heq
        rw [h1]
        exact fallbackLoop_mono used rest _ _ h id0 ((dmem_iff_mem_dkeys _ _).mp hm)
      · exact ih _ _ h id bp hrest
    · have hm' : dmem cli id0 = false := by simpa using hm
      cases hmt : make_tool_name id0 used with
      | error e =>
        simp only [fallbackLoop, hm', hmt, Bool.false_eq_true, if_false] at h
        cases h
      | ok c0 =>
        cases hsum : summarize_agent bp0.settings with
        | error e =>
          simp only [fallbackLoop, hm', hmt, hsum, Bool.false_eq_true, if_false] at h
          cases h
        | ok d0 =>
          simp only [fallbackLoop, hm', hmt, hsum, Bool.false_eq_true, if_false] at h
          rcases List.mem_cons.mp hmem with heq | hrest
          · obtain ⟨h1, _⟩ : id = id0 ∧ bp = bp0 := by simpa using heq
            rw [h1]
            exact fallbackLoop_mono used rest _ _ h id0
              (mem_dkeys_dinsert_mono _ _ _ _ (mem_dkeys_dinsert_self _ _ _))
          · exact ih _ _ h id bp hrest

theorem fallbackLoop_preserves_key (used : List String) :
    ∀ (bps : List (String × AgentBlueprint)) (cli cli' : List (String × AgentAliasEntry))
      (id : String) (v : AgentAliasEntry),
    fallbackLoop used bps cli = .ok cli' →
    dget? cli id = some v →
    (∀ pr ∈ bps, pr.1 ≠ id) →
    (∀ pr ∈ bps, make_tool_name pr.1 used ≠ .ok id) →
    dget? cli' id = some v := by
  intro bps
  induction bps with
  | nil =>
    intro cli cli' id v h hv _ _
    rw [fallbackLoop] at h
    cases h
    exact hv
  | cons pr rest ih =>
    intro cli cli' id v h hv hids hshadow
    obtain ⟨id0, bp0⟩ := pr
    by_cases hm : dmem cli id0 = true
    · simp only [fallbackLoop, hm, if_true] at h
      exact ih _ _ id v h hv (fun q hq => hids q (List.mem_cons_of_mem _ hq))
        (fun q hq => hshadow q (List.mem_cons_of_mem _ hq))
    · have hm' : dmem cli id0 = false := by simpa using hm
      cases hmt : make_tool_name id0 used with
      | error e =>
        simp only [fallbackLoop, hm', hmt, Bool.false_eq_true, if_false] at h
        cases h
      | ok c0 =>
        cases hsum : summarize_agent bp0.settings with
        | error e =>
          simp only [fallbackLoop, hm', hmt, hsum, Bool.false_eq_true, if_false] at h
          cases h
        | ok d0 =>
          simp only [fallbackLoop, hm', hmt, hsum, Bool.false_eq_true, if_false] at h
          have hne0 : id ≠ id0 := fun hc => hids (id0, bp0) (List.mem_cons_self _ _) hc.symm
          have hnec : id ≠ c0 := by
            intro hc
            apply hshadow (id0, bp0) (List.mem_cons_self _ _)
            rw [hmt, ← hc]
          refine ih _ _ id v h ?_ (fun q hq => hids q (List.mem_cons_of_mem _ hq))
            (fun q hq => hshadow q (List.mem_cons_of_mem _ hq))
          rw [dget?_dinsert_ne _ _ _ _ hnec, dget?_dinsert_ne _ _ _ _ hne0]
          exact hv

theorem fallbackLoop_resolves_own (used : List String) :
    ∀ (bps : List (String × AgentBlueprint)) (cli cli' : List (String × AgentAliasEntry))
      (id : String) (bp : AgentBlueprint),
    fallbackLoop used bps cli = .ok cli' →
    (id, bp) ∈ bps →
    (dkeys bps).Nodup →
    dmem cli id = false →
    (∀ pr ∈ bps, pr.1 ≠ id → make_tool_name pr.1 used ≠ .ok id) →
    ∃ ftool d, dget? cli' id = some
      { aliasName := id, tool_name := ftool, blueprint := bp,
        description := d, expose_in_tools := false } := by
  intro bps
  induction bps with
  | nil =>
    intro cli cli' id bp _ hmem
    exact absurd hmem (List.not_mem_nil _)
  | cons pr rest ih =>
    intro cli cli' id bp h hmem hnd hnotin hshadow
    obtain ⟨id0, bp0⟩ := pr
    have hndk : id0 ∉ dkeys rest ∧ (dkeys rest).Nodup := by
      rw [dkeys, List.map_cons] at hnd
      exact ⟨(List.nodup_cons.mp hnd).1, (List.nodup_cons.mp hnd).2⟩
    rcases List.mem_cons.mp hmem with heq | hrest
    · obtain ⟨h1, h2⟩ : id = id0 ∧ bp = bp0 := by simpa using heq
      subst h1
      subst h2
      cases hmt : make_tool_name id used with
      | error e =>
        simp only [fallbackLoop, hnotin, hmt, Bool.false_eq_true, if_false] at h
        cases h
      | ok c0 =>
        cases hsum : summarize_agent bp.settings with
        | error e =>
          simp only [fallbackLoop, hnotin, hmt, hsum, Bool.false_eq_true, if_false] at h
          cases h
        | ok d0 =>
          simp only [fallbackLoop, hnotin, hmt, hsum, Bool.false_eq_true, if_false] at h
          refine ⟨c0, d0, ?_⟩
          have hset : dget? (dinsert (dinsert cli id
              { aliasName := id, tool_name := c0, blueprint := bp,
                description := d0, expose_in_tools := false }) c0
              { aliasName := id, tool_name := c0, blueprint := bp,
                description := d0, expose_in_tools := false }) id = some
              { aliasName := id, tool_name := c0, blueprint := bp,
                description := d0, expose_in_tools := false } := by
            by_cases hc : c0 = id
            · rw [hc]
              exact dget?_dinsert_self _ _ _
            · rw [dget?_dinsert_ne _ _ _ _ (fun hcc => hc hcc.symm)]
              exact dget?_dinsert_self _ _ _
          refine fallbackLoop_preserves_key used rest _ cli' id _ h hset ?_ ?_
          · intro q hq hc
            exact hndk.1 (by rw [← hc]; exact List.mem_map_of_mem _ hq)
          · intro q hq
            refine hshadow q (List.mem_cons_of_mem _ hq) ?_
            intro hc
            exact hndk.1 (by rw [← hc]; exact List.mem_map_of_mem _ hq)
    · have hidne : id ≠ id0 := by
        intro hc
        apply hndk.1
        rw [← hc]
        exact List.mem_map_of_mem _ hrest
      by_cases hm : dmem cli id0 = true
      · simp only [fallbackLoop, hm, if_true] at h
        exact ih _ _ id bp h hrest hndk.2 hnotin
          (fun q hq => hshadow q (List.mem_cons_of_mem _ hq))
      · have hm' : dmem cli id0 = false := by simpa using hm
        cases hmt : make_tool_name id0 used with
        | error e =>
          simp only [fallbackLoop, hm', hmt, Bool.false_eq_true, if_false] at h
          cases h
        | ok c0 =>
          cases hsum : summarize_agent bp0.settings with
          | error e =>
            simp only [fallbackLoop, hm', hmt, hsum, Bool.false_eq_true, if_false] at h
            cases h
          | ok d0 =>
            simp only [fallbackLoop, hm', hmt, hsum, Bool.false_eq_true, if_false] at h
            have hc0ne : c0 ≠ id := by
              intro hc
              apply hshadow (id0, bp0) (List.mem_cons_self _ _)
                (fun hcc => hidne hcc.symm)
              rw [hmt, hc]
            refine ih _ _ id bp h hrest hndk.2 ?_
              (fun q hq => hshadow q (List.mem_cons_of_mem _ hq))
            rw [dmem_false_iff_dget?_none]
            rw [dget?_dinsert_ne _ _ _ _ (fun hcc => hc0ne hcc.symm),
              dget?_dinsert_ne _ _ _ _ hidne]
            exact (dmem_false_iff_dget?_none _ _).mp hnotin

theorem available_agents_ok (config : SubAgentConfig)
    (agents : List (String × AgentSettings))
    (h : available_agents config = .ok agents) :
    agents = agent_map config ∧ agent_map config ≠ [] := by
  rw [available_agents] at h
  by_cases hm : agent_map config = []
  · rw [if_pos hm] at h
    cases h
  · rw [if_neg hm] at h
    cases h
    exact ⟨rfl, hm⟩

theorem blueprintsOf_keys (agents : List (String × AgentSettings)) :
    dkeys (blueprintsOf agents) = dkeys agents := by
  rw [blueprintsOf, dkeys, dkeys, List.map_map]
  rfl

/-- C2 counterexample: in a configuration with agents `b` and `c` and the
alias table `{b → c}`, registry construction succeeds, the agent id `b` is
configured and is the target of no alias, yet `resolve_cli_alias "b"`
returns the alias entry for agent `c` — agent `b` does not resolve to an
entry whose blueprint is agent `b`, refuting the claim. -/
theorem c2_counterexample_alias_shadows_agent_id :
    ((buildRegistry cfgShadowedAgent).toOption.map
        (fun r => (resolve_cli_alias r "b").toOption.map
          (fun e => e.blueprint.agent_id)) = some (some "c")) ∧
    "b" ∈ dkeys (agent_map cfgShadowedAgent) ∧
    (∀ p ∈ cfgShadowedAgent.aliases, p.2 ≠ "b") ∧
    "c" ≠ "b" := by
  decide

/-- C2 (amended): after a successful registry construction every configured
agent id is a key of the CLI table, so `resolve_cli_alias` succeeds on it;
and every configured agent id that is not shadowed — not a key of the
alias-phase CLI table (alias strings and their tool names) and not equal to
any other agent's derived fallback tool name — resolves to a CLI-only
fallback entry keyed by the agent id itself whose blueprint is that agent. -/
theorem c2_amended_fallback_reachability :
    (∀ (config : SubAgentConfig) (r : Registry) (id : String),
      buildRegistry config = .ok r → id ∈ dkeys (agent_map config) →
      ∃ e, resolve_cli_alias r id = .ok e) ∧
    (∀ (config : SubAgentConfig) (r : Registry)
      (agents : List (String × AgentSettings))
      (E : List (String × AgentAliasEntry)) (B : List (String × List String))
      (U : List String) (id : String) (s : AgentSettings),
      buildRegistry config = .ok r →
      available_agents config = .ok agents →
      aliasLoop (blueprintsOf agents) config.aliases []
        (agents.map (fun p => (p.1, ([] : List String)))) [] = .ok (E, B, U) →
      (id, s) ∈ agents →
      (dkeys agents).Nodup →
      id ∉ dkeys (cliFromEntries E []) →
      (∀ pr ∈ blueprintsOf agents, pr.1 ≠ id → make_tool_name pr.1 U ≠ .ok id) →
      ∃ e, resolve_cli_alias r id = .ok e ∧ e.blueprint.agent_id = id ∧
        e.aliasName = id ∧ e.expose_in_tools = false) := by
  constructor
  · intro config r id h hid
    obtain ⟨agents, E, B, U, cli, hA, hne, hL, hF, hr⟩ := buildRegistry_ok_parts config r h
    obtain ⟨hagents, _⟩ := available_agents_ok config agents hA
    rw [← hagents] at hid
    obtain ⟨s, hs⟩ := dget?_some_of_mem_keys agents id hid
    obtain ⟨p, hpmem, hp1, hp2⟩ := dget?_some_spec agents id s hs
    have hbp : (id, AgentBlueprint.mk id s p.2.mcp_servers) ∈ blueprintsOf agents := by
      rw [blueprintsOf, List.mem_map]
      refine ⟨p, hpmem, ?_⟩
      rw [hp1, hp2]
    have hkey : id ∈ dkeys cli := fallbackLoop_covers U _ _ _ hF id _ hbp
    obtain ⟨e, he⟩ := dget?_some_of_mem_keys cli id hkey
    refine ⟨e, ?_⟩
    rw [hr]
    simp only [resolve_cli_alias, he]
  · intro config r agents E B U id s h hA hL hmem hnd hnotin hshadow
    obtain ⟨agents', E', B', U', cli, hA', hne, hL', hF, hr⟩ :=
      buildRegistry_ok_parts config r h
    have hag : agents' = agents := by
      cases hA'.symm.trans hA
      rfl
    rw [hag] at hL' hF
    have htrip : E' = E ∧ B' = B ∧ U' = U := by
      cases hL'.symm.trans hL
      exact ⟨rfl, rfl, rfl⟩
    rw [htrip.1, htrip.2.2] at hF
    rw [htrip.1] at hr
    have hbp : (id, AgentBlueprint.mk id s s.mcp_servers) ∈ blueprintsOf agents := by
      rw [blueprintsOf, List.mem_map]
      exact ⟨(id, s), hmem, rfl⟩
    have hndb : (dkeys (blueprintsOf agents)).Nodup := by
      rw [blueprintsOf_keys]
      exact hnd
    have hdm : dmem (cliFromEntries E []) id = false :=
      (dmem_eq_false_iff _ _).mpr hnotin
    obtain ⟨ftool, d, hget⟩ := fallbackLoop_resolves_own U _ _ cli id _ hF hbp hndb
      hdm hshadow
    refine ⟨{ aliasName := id, tool_name := ftool,
              blueprint := AgentBlueprint.mk id s s.mcp_servers,
              description := d, expose_in_tools := false }, ?_, rfl, rfl, rfl⟩
    rw [hr]
    simp only [resolve_cli_alias, hget]

/-- Witness for the amended C2 at a configuration where agent `other` has
no alias and is unshadowed. -/
theorem c2_amended_fallback_reachability_witness :
    (buildRegistry cfgWorkflowNoDefault = .ok (regOf cfgWorkflowNoDefault) ∧
      "other" ∈ dkeys (agent_map cfgWorkflowNoDefault) ∧
      ∃ e, resolve_cli_alias (regOf cfgWorkflowNoDefault) "other" = .ok e) ∧
    (∃ e, resolve_cli_alias (regOf cfgWorkflowNoDefault) "other" = .ok e ∧
      e.blueprint.agent_id = "other" ∧ e.aliasName = "other" ∧
      e.expose_in_tools = false) :=
  ⟨⟨by decide, by decide,
    c2_amended_fallback_reachability.1 cfgWorkflowNoDefault
      (regOf cfgWorkflowNoDefault) "other" (by decide) (by decide)⟩,
   c2_amended_fallback_reachability.2 cfgWorkflowNoDefault
     (regOf cfgWorkflowNoDefault) (agent_map cfgWorkflowNoDefault)
     (aliasPhaseTriple cfgWorkflowNoDefault).1
     (aliasPhaseTriple cfgWorkflowNoDefault).2.1
     (aliasPhaseTriple cfgWorkflowNoDefault).2.2
     "other" exampleSettings (by decide) (by decide) (by decide) (by decide)
     (by decide) (by decide) (by decide)⟩

end CSA

